import Mathlib

/-!
Verification of the cancer-extraction-pipeline event-stream core.

Shallow embedding of the pipeline stages under `src/`:
* `extract_events` (src/src/pipeline/.ipynb_checkpoints/step_03a_extract_events-checkpoint.py):
  per-subject trajectory windowing over raw observation events;
* `step_03_create_event_streams.py`: the `drop_nulls(subset=['time'])` step and the
  chunked shard assembly;
* `sort_events` (step_03b checkpoint): the three-priority canonical sort;
* `map_all_codes` (src/src/utils/.ipynb_checkpoints/mapping_setup-checkpoint.py) and the
  four-way coalesce of step_03: mapping precedence;
* `create_drug_episodes` (src/src/utils/drug_episodes.py): episode segmentation;
* `clean_events` (src/src/pipeline/step_05a_clean_events.py): LAB / MEASUREMENT cleaning
  and the sharded writer.

Dates are embedded as calendar records with the year-offset semantics of polars
`dt.offset_by` (calendar years, Feb 29 clamped to Feb 28); times inside the later,
purely ordinal stages are embedded as integer day indices; numeric values as `ℚ`.
Statistics that the source computes with a floating square root (`std`) are embedded
with `Real.sqrt` on the statement side and with an equivalent squared rational form
on the executable side, with a proved bridge between the two.
-/

/-! ## Calendar dates (stage 03a) -/

/-- Gregorian leap-year test. -/
def isLeap (y : Int) : Bool := (y % 4 == 0 && y % 100 != 0) || (y % 400 == 0)

/-- A calendar date, as compared by polars `pl.Date` values (chronological =
lexicographic on year, month, day). -/
structure Date where
  year : Int
  month : Nat
  day : Nat
deriving DecidableEq, Repr

/-- Chronological comparison of dates (lexicographic). -/
def date_le (a b : Date) : Bool :=
  a.year < b.year ||
    (a.year == b.year && (a.month < b.month || (a.month == b.month && a.day ≤ b.day)))

/-- Strict chronological comparison. -/
def date_lt (a b : Date) : Bool := date_le a b && !(a == b)

/-- polars `dt.offset_by("{k}y")`: shift the year by `k`, clamping Feb 29 to
Feb 28 when the target year is not a leap year. -/
def offset_by_years (k : Int) (d : Date) : Date :=
  let y := d.year + k
  if d.month == 2 && d.day == 29 && !(isLeap y) then ⟨y, 2, 28⟩ else ⟨y, d.month, d.day⟩

/-! ## Raw observation events and subjects (stage 03a) -/

/-- One raw observation row after standardisation in `extract_events`:
`time` (nullable date), the raw `medcodeid` and the optional numeric value. -/
structure RawObs where
  time : Option Date
  medcodeid : String
  value : Option ℚ
deriving DecidableEq, Repr

/-- The subject-table fields used by `extract_events`: the case flag and the
(nullable) cancer diagnosis date. -/
structure SubjectRow where
  is_case : Bool
  cancerdate : Option Date
deriving DecidableEq, Repr

/-- `pl.max("time").over("e_patid")`: the maximum non-null event date of a
subject's own raw events (`none` when every date is null). -/
def last_event_date (evs : List RawObs) : Option Date :=
  evs.foldl
    (fun acc e =>
      match acc, e.time with
      | none, t => t
      | some a, none => some a
      | some a, some t => some (if date_le a t then t else a))
    none

/-- The per-subject window `(start_date, end_date)` of `extract_events`:
cases use `cancerdate − 5y .. cancerdate`, controls use
`last_event_date − 6y .. last_event_date − 1y`. -/
def window_bounds (s : SubjectRow) (evs : List RawObs) : Option Date × Option Date :=
  let last := last_event_date evs
  (if s.is_case then s.cancerdate.map (offset_by_years (-5))
   else last.map (offset_by_years (-6)),
   if s.is_case then s.cancerdate else last.map (offset_by_years (-1)))

/-- polars `pl.col("time").is_between(start, end)` used as a filter: inclusive on
both ends, and null (hence dropped by `filter`) as soon as any of the three
dates is null. -/
def in_window (lo hi t : Option Date) : Bool :=
  match t, lo, hi with
  | some t, some a, some b => date_le a t && date_le t b
  | _, _, _ => false

/-- The trajectory window filter of `extract_events` (stage 03a): keep exactly
the rows whose time lies inside the subject's window. -/
def extract_events (s : SubjectRow) (evs : List RawObs) : List RawObs :=
  evs.filter fun e =>
    in_window (window_bounds s evs).1 (window_bounds s evs).2 e.time

/-- `all_events_lf.drop_nulls(subset=['time'])` of `step_03_create_event_streams.py`:
drop every raw event whose time is null. -/
def drop_null_times (evs : List RawObs) : List RawObs :=
  evs.filter fun e => e.time.isSome

/-! Helper lemmas about `last_event_date`. -/

/-- `date_le` is reflexive. -/
theorem date_le_refl (a : Date) : date_le a a = true := by
  unfold date_le; simp

theorem last_event_date_go (evs : List RawObs) (a : Date) :
    ∃ b, (evs.foldl
      (fun acc e =>
        match acc, e.time with
        | none, t => t
        | some a, none => some a
        | some a, some t => some (if date_le a t then t else a))
      (some a)) = some b := by
  induction evs generalizing a with
  | nil => exact ⟨a, rfl⟩
  | cons e rest ih =>
    cases h : e.time with
    | none => simpa [h] using ih a
    | some t => simpa [h] using ih _

/-- `date_le` is total. -/
theorem date_le_total (a b : Date) : date_le a b = true ∨ date_le b a = true := by
  unfold date_le
  rcases lt_trichotomy a.year b.year with h | h | h
  · left; simp [h]
  · rcases lt_trichotomy a.month b.month with hm | hm | hm
    · left; simp [h, hm]
    · rcases Nat.le_total a.day b.day with hd | hd
      · left; simp [h, hm, hd]
      · right; simp [h.symm, hm, hd]
    · right; simp [h.symm, hm]
  · right; simp [h]

/-- `date_le` is transitive. -/
theorem date_le_trans {a b c : Date} (h1 : date_le a b = true) (h2 : date_le b c = true) :
    date_le a c = true := by
  unfold date_le at *
  simp only [Bool.or_eq_true, Bool.and_eq_true, beq_iff_eq, decide_eq_true_eq] at *
  rcases h1 with h1 | ⟨h1e, h1⟩ <;> rcases h2 with h2 | ⟨h2e, h2⟩
  · exact Or.inl (h1.trans h2)
  · exact Or.inl (h2e ▸ h1)
  · exact Or.inl (h1e ▸ h2)
  · refine Or.inr ⟨h1e.trans h2e, ?_⟩
    rcases h1 with h1 | ⟨h1e', h1⟩ <;> rcases h2 with h2 | ⟨h2e', h2⟩
    · exact Or.inl (h1.trans h2)
    · exact Or.inl (h2e' ▸ h1)
    · exact Or.inl (h1e' ▸ h2)
    · exact Or.inr ⟨h1e'.trans h2e', h1.trans h2⟩

/-- The single fold step used by `last_event_date`. -/
def led_step (acc : Option Date) (t : Option Date) : Option Date :=
  match acc, t with
  | none, t => t
  | some a, none => some a
  | some a, some t => some (if date_le a t then t else a)

theorem last_event_date_eq_fold (evs : List RawObs) :
    last_event_date evs = evs.foldl (fun acc e => led_step acc e.time) none := by
  unfold last_event_date led_step
  rfl

/-- Full characterisation of the fold behind `last_event_date`: the result is
attained (by the accumulator or by some event), dominates the accumulator, and
dominates every dated event of the list. -/
theorem led_fold_spec (evs : List RawObs) (acc : Option Date) (d : Date)
    (h : evs.foldl (fun acc e => led_step acc e.time) acc = some d) :
    (acc = some d ∨ ∃ e ∈ evs, e.time = some d) ∧
      (∀ a, acc = some a → date_le a d = true) ∧
      (∀ e ∈ evs, ∀ t, e.time = some t → date_le t d = true) := by
  induction evs generalizing acc with
  | nil =>
    simp only [List.foldl_nil] at h
    refine ⟨Or.inl h, ?_, by simp⟩
    intro a ha
    rw [ha] at h
    obtain rfl : a = d := Option.some.inj h
    exact date_le_refl a
  | cons e rest ih =>
    simp only [List.foldl_cons] at h
    obtain ⟨hatt, hacc, hevs⟩ := ih (led_step acc e.time) h
    cases he : e.time with
    | none =>
      have hstep : led_step acc e.time = acc := by
        cases acc <;> simp [led_step, he]
      rw [hstep] at hatt hacc
      refine ⟨?_, hacc, ?_⟩
      · rcases hatt with h1 | ⟨e2, h2, h3⟩
        · exact Or.inl h1
        · exact Or.inr ⟨e2, List.mem_cons_of_mem _ h2, h3⟩
      · rintro e2 h2 t ht
        rcases List.mem_cons.mp h2 with rfl | h2
        · rw [he] at ht; cases ht
        · exact hevs e2 h2 t ht
    | some t0 =>
      cases hac : acc with
      | none =>
        have hstep : led_step acc e.time = some t0 := by simp [led_step, hac, he]
        rw [hstep] at hatt hacc
        refine ⟨?_, by simp [hac], ?_⟩
        · rcases hatt with h1 | ⟨e2, h2, h3⟩
          · exact Or.inr ⟨e, List.mem_cons_self _ _, by rw [he]; exact h1.symm ▸ rfl⟩
          · exact Or.inr ⟨e2, List.mem_cons_of_mem _ h2, h3⟩
        · rintro e2 h2 t ht
          rcases List.mem_cons.mp h2 with rfl | h2
          · rw [he] at ht
            obtain rfl : t0 = t := Option.some.inj ht
            exact hacc t0 rfl
          · exact hevs e2 h2 t ht
      | some a =>
        have hstep : led_step acc e.time = some (if date_le a t0 then t0 else a) := by
          simp [led_step, hac, he]
        rw [hstep] at hatt hacc
        have ht0d : date_le t0 d = true := by
          by_cases hle : date_le a t0 = true
          · exact hacc _ (by simp [hle])
          · rcases date_le_total a t0 with hh | hh
            · exact absurd hh hle
            · exact date_le_trans hh (hacc _ (by simp [hle]))
        have had : date_le a d = true := by
          by_cases hle : date_le a t0 = true
          · exact date_le_trans hle (hacc _ (by simp [hle]))
          · exact hacc _ (by simp [hle])
        refine ⟨?_, ?_, ?_⟩
        · rcases hatt with h1 | ⟨e2, h2, h3⟩
          · by_cases hle : date_le a t0 = true
            · rw [if_pos hle] at h1
              exact Or.inr ⟨e, List.mem_cons_self _ _, by rw [he, h1]⟩
            · rw [if_neg hle] at h1
              exact Or.inl h1
          · exact Or.inr ⟨e2, List.mem_cons_of_mem _ h2, h3⟩
        · rintro a2 ha2
          obtain rfl : a = a2 := Option.some.inj ha2
          exact had
        · rintro e2 h2 t ht
          rcases List.mem_cons.mp h2 with rfl | h2
          · rw [he] at ht
            cases ht
            exact ht0d
          · exact hevs e2 h2 t ht

/-- `last_event_date` is attained by some event and bounds every dated event. -/
theorem last_event_date_spec (evs : List RawObs) (d : Date)
    (h : last_event_date evs = some d) :
    (∃ e ∈ evs, e.time = some d) ∧
      ∀ e ∈ evs, ∀ t, e.time = some t → date_le t d = true := by
  rw [last_event_date_eq_fold] at h
  obtain ⟨hatt, _, hevs⟩ := led_fold_spec evs none d h
  rcases hatt with h1 | h1
  · cases h1
  · exact ⟨h1, hevs⟩
/-! ## Claims C1 and C5: the trajectory window filter -/

/-- `in_window` succeeds exactly on fully non-null triples inside the bounds. -/
theorem in_window_iff (lo hi t : Option Date) :
    in_window lo hi t = true ↔
      ∃ a b u, lo = some a ∧ hi = some b ∧ t = some u ∧
        date_le a u = true ∧ date_le u b = true := by
  rcases lo with _ | a <;> rcases hi with _ | b <;> rcases t with _ | u <;>
    simp [in_window]

/-- Claim C1: for a case subject, exactly the raw events with non-null time in
the inclusive window `[cancer_date − 5 years, cancer_date]` are retained by the
trajectory window filter; for a control subject, exactly those in
`[last_observed_event_date − 6 years, last_observed_event_date − 1 year]`,
where `last_observed_event_date` is the maximum non-null event date over that
subject's own raw events only. -/
theorem C1_trajectory_window (s : SubjectRow) (evs : List RawObs) (e : RawObs) :
    (∀ cd, s.is_case = true → s.cancerdate = some cd →
      (e ∈ extract_events s evs ↔
        e ∈ evs ∧ ∃ t, e.time = some t ∧
          date_le (offset_by_years (-5) cd) t = true ∧ date_le t cd = true)) ∧
    (s.is_case = false →
      (e ∈ extract_events s evs ↔
        e ∈ evs ∧ ∃ t last, e.time = some t ∧ last_event_date evs = some last ∧
          date_le (offset_by_years (-6) last) t = true ∧
          date_le t (offset_by_years (-1) last) = true)) ∧
    (∀ d, last_event_date evs = some d →
      (∃ e2 ∈ evs, e2.time = some d) ∧
        ∀ e2 ∈ evs, ∀ t, e2.time = some t → date_le t d = true) := by
  have hbounds : ∀ a, a ∈ extract_events s evs ↔
      a ∈ evs ∧
        in_window (window_bounds s evs).1 (window_bounds s evs).2 a.time = true := by
    intro a
    unfold extract_events
    exact List.mem_filter
  refine ⟨?_, ?_, fun d hd => last_event_date_spec evs d hd⟩
  · intro cd hcase hcd
    have hw1 : (window_bounds s evs).1 = some (offset_by_years (-5) cd) := by
      simp [window_bounds, hcase, hcd]
    have hw2 : (window_bounds s evs).2 = some cd := by
      simp [window_bounds, hcase, hcd]
    rw [hbounds, in_window_iff, hw1, hw2]
    constructor
    · rintro ⟨hmem, a, b, u, ha, hb, hu, h1, h2⟩
      obtain rfl : offset_by_years (-5) cd = a := Option.some.inj ha
      obtain rfl : cd = b := Option.some.inj hb
      exact ⟨hmem, u, hu, h1, h2⟩
    · rintro ⟨hmem, t, ht, h1, h2⟩
      exact ⟨hmem, _, _, t, rfl, rfl, ht, h1, h2⟩
  · intro hctl
    have hw1 : (window_bounds s evs).1 =
        (last_event_date evs).map (offset_by_years (-6)) := by
      simp [window_bounds, hctl]
    have hw2 : (window_bounds s evs).2 =
        (last_event_date evs).map (offset_by_years (-1)) := by
      simp [window_bounds, hctl]
    rw [hbounds, in_window_iff, hw1, hw2]
    constructor
    · rintro ⟨hmem, a, b, u, ha, hb, hu, h1, h2⟩
      obtain ⟨l, hl, rfl⟩ := Option.map_eq_some'.mp ha
      obtain ⟨l2, hl2, rfl⟩ := Option.map_eq_some'.mp hb
      rw [hl] at hl2
      obtain rfl : l = l2 := Option.some.inj hl2
      exact ⟨hmem, u, l, hu, hl, h1, h2⟩
    · rintro ⟨hmem, t, last, ht, hl, h1, h2⟩
      exact ⟨hmem, _, _, t, by rw [hl]; rfl, by rw [hl]; rfl, ht, h1, h2⟩

/-- Witness for C1: a concrete control subject whose event on 2010-01-01 lies
inside the window derived from its own last event date 2015-06-01. -/
theorem C1_trajectory_window_witness :
    (⟨some ⟨2010, 1, 1⟩, "m1", none⟩ : RawObs) ∈
      extract_events ⟨false, none⟩
        [⟨some ⟨2010, 1, 1⟩, "m1", none⟩, ⟨some ⟨2015, 6, 1⟩, "m2", none⟩] :=
  ((C1_trajectory_window ⟨false, none⟩
      [⟨some ⟨2010, 1, 1⟩, "m1", none⟩, ⟨some ⟨2015, 6, 1⟩, "m2", none⟩]
      ⟨some ⟨2010, 1, 1⟩, "m1", none⟩).2.1 rfl).mpr
    ⟨by decide, ⟨2010, 1, 1⟩, ⟨2015, 6, 1⟩, rfl, by decide, by decide, by decide⟩

/-- Counterexample to Claim C5: a raw event with null time is not preserved —
it is removed both by step_03's `drop_nulls(subset=['time'])` and by the
checkpoint trajectory window filter, so it never reaches the Event Sequencer. -/
theorem C5_counterexample :
    (⟨none, "m0", none⟩ : RawObs) ∈
        ([⟨none, "m0", none⟩, ⟨some ⟨2015, 6, 1⟩, "m2", none⟩] : List RawObs) ∧
      (⟨none, "m0", none⟩ : RawObs) ∉
        drop_null_times [⟨none, "m0", none⟩, ⟨some ⟨2015, 6, 1⟩, "m2", none⟩] ∧
      (⟨none, "m0", none⟩ : RawObs) ∉
        extract_events ⟨false, none⟩
          [⟨none, "m0", none⟩, ⟨some ⟨2015, 6, 1⟩, "m2", none⟩] ∧
      (⟨none, "m0", none⟩ : RawObs) ∉
        extract_events ⟨true, some ⟨2015, 6, 1⟩⟩
          [⟨none, "m0", none⟩, ⟨some ⟨2015, 6, 1⟩, "m2", none⟩] := by
  decide

/-- Claim C5 (amended): raw events with null time are dropped by the extraction
stages — `drop_nulls(subset=['time'])` removes them in
step_03_create_event_streams, and the trajectory window filter of the 03a
checkpoint retains only events with non-null time — so they never reach the
Event Sequencer. -/
theorem C5_null_time_dropped (s : SubjectRow) (evs : List RawObs) (e : RawObs)
    (h : e.time = none) :
    e ∉ drop_null_times evs ∧ e ∉ extract_events s evs := by
  constructor
  · intro hmem
    have := (List.mem_filter.mp hmem).2
    rw [h] at this
    cases this
  · intro hmem
    have h2 := (List.mem_filter.mp hmem).2
    rw [h] at h2
    obtain ⟨a, b, u, _, _, hu, _, _⟩ := (in_window_iff _ _ _).mp h2
    cases hu

/-- Witness for the amended C5. -/
theorem C5_null_time_dropped_witness :
    (⟨none, "m0", none⟩ : RawObs) ∉
        drop_null_times [⟨none, "m0", none⟩, ⟨some ⟨2015, 6, 1⟩, "m2", none⟩] ∧
      (⟨none, "m0", none⟩ : RawObs) ∉
        extract_events ⟨true, some ⟨2015, 6, 1⟩⟩
          [⟨none, "m0", none⟩, ⟨some ⟨2015, 6, 1⟩, "m2", none⟩] :=
  C5_null_time_dropped ⟨true, some ⟨2015, 6, 1⟩⟩
    [⟨none, "m0", none⟩, ⟨some ⟨2015, 6, 1⟩, "m2", none⟩] ⟨none, "m0", none⟩ rfl

/-! ## Stage 03b: the canonical three-priority sort (`sort_events`) -/

/-- A stream event as sorted by stage 03b: subject id, nullable time, canonical
code and optional numeric value. -/
structure SEvent where
  subject : Int
  time : Option Date
  code : String
  numeric_value : Option ℚ
deriving DecidableEq, Repr

/-- The custom sort key of `sort_events`: priority 0 for the `MEDS_BIRTH` event,
priority 1 for events with a null timestamp, priority 2 otherwise. -/
def sort_priority (e : SEvent) : Nat :=
  if e.code = "MEDS_BIRTH" then 0 else if e.time = none then 1 else 2

/-- Comparison on nullable times as polars sorts them (nulls first). -/
def time_le (a b : Option Date) : Bool :=
  match a, b with
  | none, _ => true
  | some _, none => false
  | some x, some y => date_le x y

/-- The lexicographic order `(subject_id, _sort_priority, time)` used by the
final `.sort` of stage 03b. -/
def event_le (a b : SEvent) : Bool :=
  if a.subject < b.subject then true
  else if b.subject < a.subject then false
  else if sort_priority a < sort_priority b then true
  else if sort_priority b < sort_priority a then false
  else time_le a.time b.time

/-- `event_le` as a Prop-valued relation for `List.insertionSort`. -/
def sevent_le (a b : SEvent) : Prop := event_le a b = true

instance : DecidableRel sevent_le := fun a b => by
  unfold sevent_le; infer_instance

theorem time_le_total (a b : Option Date) : time_le a b = true ∨ time_le b a = true := by
  rcases a with _ | x <;> rcases b with _ | y <;> simp [time_le]
  exact date_le_total x y

theorem time_le_trans {a b c : Option Date} (h1 : time_le a b = true)
    (h2 : time_le b c = true) : time_le a c = true := by
  rcases a with _ | x <;> rcases b with _ | y <;> rcases c with _ | z <;>
    simp [time_le] at * <;> try exact date_le_trans h1 h2

/-- Lexicographic key of a date. -/
def dkey (d : Date) : Int ×ₗ (ℕ ×ₗ ℕ) := toLex (d.year, toLex (d.month, d.day))

theorem date_le_iff (a b : Date) : date_le a b = true ↔ dkey a ≤ dkey b := by
  unfold date_le dkey
  rw [Prod.Lex.le_iff]
  simp only [Prod.Lex.le_iff, Bool.or_eq_true, Bool.and_eq_true, beq_iff_eq,
    decide_eq_true_eq]

/-- Lexicographic key of a nullable time (nulls first). -/
def tkey (t : Option Date) : ℕ ×ₗ (Int ×ₗ (ℕ ×ₗ ℕ)) :=
  match t with
  | none => toLex (0, dkey ⟨0, 0, 0⟩)
  | some d => toLex (1, dkey d)

theorem time_le_iff (a b : Option Date) : time_le a b = true ↔ tkey a ≤ tkey b := by
  rcases a with _ | x <;> rcases b with _ | y <;>
    simp [time_le, tkey, Prod.Lex.le_iff, date_le_iff]

/-- Lexicographic key of an event: `(subject_id, _sort_priority, time)`. -/
def ekey (e : SEvent) : Int ×ₗ (ℕ ×ₗ (ℕ ×ₗ (Int ×ₗ (ℕ ×ₗ ℕ)))) :=
  toLex (e.subject, toLex (sort_priority e, tkey e.time))

theorem event_le_iff (a b : SEvent) : event_le a b = true ↔ ekey a ≤ ekey b := by
  unfold event_le ekey
  rw [Prod.Lex.le_iff]
  rcases lt_trichotomy a.subject b.subject with h | h | h
  · simp [h]
  · rcases lt_trichotomy (sort_priority a) (sort_priority b) with hp | hp | hp
    · simp [h, lt_irrefl, hp, Prod.Lex.le_iff]
    · simp [h, lt_irrefl, hp, Prod.Lex.le_iff, time_le_iff]
    · apply iff_of_false
      · simp [h, lt_irrefl, hp, Nat.lt_asymm hp]
      · rw [Prod.Lex.le_iff]
        rintro (h2 | ⟨h2, h3⟩) <;> omega
  · apply iff_of_false
    · simp [h, not_lt_of_lt h, lt_irrefl]
    · rintro (h3 | ⟨h3, h4⟩) <;> simp at h3 <;> omega

instance : IsTotal SEvent sevent_le :=
  ⟨fun a b => by
    unfold sevent_le
    rw [event_le_iff, event_le_iff]
    exact le_total _ _⟩

instance : IsTrans SEvent sevent_le :=
  ⟨fun a b c h1 h2 => by
    unfold sevent_le at *
    rw [event_le_iff] at *
    exact le_trans h1 h2⟩

/-- Comparable events with equal subjects are ordered by priority first. -/
theorem sevent_le_pri {a b : SEvent} (hs : a.subject = b.subject) (h : sevent_le a b) :
    sort_priority a ≤ sort_priority b := by
  unfold sevent_le at h
  rw [event_le_iff] at h
  unfold ekey at h
  rcases (Prod.Lex.le_iff _ _).mp h with h1 | ⟨h1, h2⟩
  · simp only [] at h1
    omega
  · rcases (Prod.Lex.le_iff _ _).mp h2 with h3 | ⟨h3, h4⟩
    · simp only [] at h3
      omega
    · simp only [] at h3
      omega

/-- Comparable events with equal subjects and priorities are ordered by time. -/
theorem sevent_le_time_le {a b : SEvent} (hp : sort_priority a = sort_priority b)
    (h : sevent_le a b) (hs : a.subject = b.subject) :
    time_le a.time b.time = true := by
  unfold sevent_le at h
  rw [event_le_iff] at h
  unfold ekey at h
  rcases (Prod.Lex.le_iff _ _).mp h with h1 | ⟨h1, h2⟩
  · simp only [] at h1
    omega
  · rcases (Prod.Lex.le_iff _ _).mp h2 with h3 | ⟨h3, h4⟩
    · simp only [] at h3
      omega
    · rw [time_le_iff]
      exact h4

/-- The static `MEDS_BIRTH` event of stage 03b: time = January 1 of the birth
year, null value. -/
def birth_event (sid yob : Int) : SEvent :=
  ⟨sid, some ⟨yob, 1, 1⟩, "MEDS_BIRTH", none⟩

/-- Stage 03b `sort_events`: concatenate the medical events with the per-subject
birth events and apply the canonical `(subject_id, _sort_priority, time)` sort
(a stable sort, embedded as insertion sort). -/
def sort_events (subjects : List (Int × Int)) (med : List SEvent) : List SEvent :=
  List.insertionSort sevent_le (med ++ subjects.map fun p => birth_event p.1 p.2)

/-- The persisted slice of one subject, in persisted order. -/
def eventsOf (s : Int) (l : List SEvent) : List SEvent :=
  l.filter fun e => e.subject == s

/-- Claim C2: for every subject in the persisted event stream, the first
persisted event is the `MEDS_BIRTH` event, every event with null time comes
immediately after it and before any dated event, and the remaining events
appear in non-decreasing order of time. -/
theorem C2_sort_invariant (subjects : List (Int × Int)) (med : List SEvent)
    (s yob : Int)
    (hnodup : (subjects.map Prod.fst).Nodup)
    (hsub : (s, yob) ∈ subjects)
    (hmed : ∀ e ∈ med, e.code ≠ "MEDS_BIRTH") :
    ∃ ns ds,
      eventsOf s (sort_events subjects med) = birth_event s yob :: (ns ++ ds) ∧
      (∀ e ∈ ns, e.time = none) ∧
      (∀ e ∈ ds, e.time ≠ none) ∧
      List.Chain' (fun a b => time_le a.time b.time = true) ds := by
  set b := birth_event s yob with hb
  set births := subjects.map (fun p => birth_event p.1 p.2) with hbirths
  set L := sort_events subjects med with hL
  set Ls := eventsOf s L with hLsdef
  have hperm : L.Perm (med ++ births) := List.perm_insertionSort _ _
  have hsorted : L.Pairwise sevent_le := List.sorted_insertionSort _ _
  have hpairLs : Ls.Pairwise sevent_le := hsorted.filter _
  have hmemLs : ∀ e, e ∈ Ls ↔ (e ∈ med ++ births ∧ e.subject = s) := by
    intro e
    rw [hLsdef]
    unfold eventsOf
    rw [List.mem_filter, hperm.mem_iff]
    simp
  have hbirth_inj : Function.Injective (fun p : Int × Int => birth_event p.1 p.2) := by
    rintro ⟨x1, x2⟩ ⟨y1, y2⟩ h
    simp only [birth_event, SEvent.mk.injEq, Option.some.injEq, Date.mk.injEq] at h
    obtain ⟨h1, ⟨h2, _, _⟩, _, _⟩ := h
    simp [h1, h2]
  have hb_mem : b ∈ Ls := by
    rw [hmemLs]
    exact ⟨List.mem_append_right _ (List.mem_map_of_mem _ hsub), rfl⟩
  have huniqpair : ∀ p ∈ subjects, p.1 = s → p = (s, yob) := by
    intro p hp hps
    exact List.inj_on_of_nodup_map hnodup hp hsub (by simp [hps])
  have huniqb : ∀ e ∈ Ls, e.code = "MEDS_BIRTH" → e = b := by
    intro e he hcode
    obtain ⟨hpool, hsubj⟩ := (hmemLs e).mp he
    rcases List.mem_append.mp hpool with hm | hm
    · exact absurd hcode (hmed e hm)
    · obtain ⟨p, hp, rfl⟩ := List.mem_map.mp hm
      have hps : p = (s, yob) := huniqpair p hp (by simpa [birth_event] using hsubj)
      rw [hps]
  have hcount : Ls.count b ≤ 1 := by
    have h1 : Ls.count b ≤ L.count b := by
      rw [hLsdef]
      exact (List.filter_sublist _).count_le _
    have h2 : L.count b = (med ++ births).count b := hperm.count_eq _
    have h3 : (med ++ births).count b = births.count b := by
      rw [List.count_append, List.count_eq_zero.mpr, Nat.zero_add]
      intro hmm
      exact hmed b hmm rfl
    have h4 : births.count b = 1 := by
      have hbn : births.Nodup := (hnodup.of_map).map hbirth_inj
      exact List.count_eq_one_of_mem hbn (List.mem_map_of_mem _ hsub)
    omega
  have hsubjLs : ∀ e ∈ Ls, e.subject = s := fun e he => ((hmemLs e).mp he).2
  obtain ⟨h0, rest, hrest⟩ : ∃ h0 rest, Ls = h0 :: rest := by
    cases hLs2 : Ls with
    | nil => rw [hLs2] at hb_mem; cases hb_mem
    | cons x xs => exact ⟨x, xs, rfl⟩
  have hpri_b : sort_priority b = 0 := by
    simp [sort_priority, hb, birth_event]
  have hh0 : h0 = b := by
    by_contra hne
    have hbrest : b ∈ rest := by
      have hmm := hb_mem
      rw [hrest] at hmm
      rcases List.mem_cons.mp hmm with h | h
      · exact absurd h.symm hne
      · exact h
    have hple : sevent_le h0 b := by
      have hp2 := hrest ▸ hpairLs
      exact (List.pairwise_cons.mp hp2).1 b hbrest
    have hcode0 : h0.code ≠ "MEDS_BIRTH" := by
      intro hc
      exact hne (huniqb h0 (by rw [hrest]; exact List.mem_cons_self _ _) hc)
    have hs0 : h0.subject = s := hsubjLs h0 (by rw [hrest]; exact List.mem_cons_self _ _)
    have hpri := sevent_le_pri (by rw [hs0, hb]; rfl) hple
    have hpri0 : 1 ≤ sort_priority h0 := by
      unfold sort_priority
      rw [if_neg hcode0]
      split <;> omega
    omega
  subst hh0
  have hbnotrest : b ∉ rest := by
    intro hmm
    have hc2 : 2 ≤ Ls.count b := by
      rw [hrest, List.count_cons_self]
      have := List.count_pos_iff_mem.mpr hmm
      omega
    omega
  have hrestcode : ∀ e ∈ rest, e.code ≠ "MEDS_BIRTH" := by
    intro e he hc
    have heLs : e ∈ Ls := by rw [hrest]; exact List.mem_cons_of_mem _ he
    have heb := huniqb e heLs hc
    rw [heb] at he
    exact hbnotrest he
  have hrestpair : rest.Pairwise sevent_le := by
    have hp2 := hrest ▸ hpairLs
    exact (List.pairwise_cons.mp hp2).2
  have hrestsub : ∀ e ∈ rest, e.subject = s := fun e he =>
    hsubjLs e (by rw [hrest]; exact List.mem_cons_of_mem _ he)
  refine ⟨rest.takeWhile (fun e => e.time.isNone),
          rest.dropWhile (fun e => e.time.isNone), ?_, ?_, ?_, ?_⟩
  · rw [hrest, List.takeWhile_append_dropWhile]
  · intro e he
    have hp := List.mem_takeWhile_imp he
    rwa [Option.isNone_iff_eq_none] at hp
  · -- every event of the dated suffix has non-null time
    have hdssub : List.Sublist (rest.dropWhile (fun e => e.time.isNone)) rest :=
      List.dropWhile_sublist _
    cases hcase : rest.dropWhile (fun e => e.time.isNone) with
    | nil => simp
    | cons d0 ds2 =>
      have hd0 : d0.time ≠ none := by
        have hhd := List.head?_dropWhile_not (fun e => (e.time.isNone : Bool)) rest
        rw [hcase] at hhd
        simp only [List.head?_cons] at hhd
        intro hnull
        rw [hnull] at hhd
        simp at hhd
      intro e he hnull
      rcases List.mem_cons.mp he with rfl | he2
      · exact hd0 hnull
      · -- e is after d0 in the sorted suffix but has smaller priority
        have hdspair : (d0 :: ds2).Pairwise sevent_le := by
          rw [← hcase]
          exact hrestpair.sublist hdssub
        have hled : sevent_le d0 e := (List.pairwise_cons.mp hdspair).1 e he2
        have hd0rest : d0 ∈ rest := hdssub.subset (hcase ▸ List.mem_cons_self _ _)
        have herest : e ∈ rest := hdssub.subset (hcase ▸ List.mem_cons_of_mem _ he2)
        have hprid0 : sort_priority d0 = 2 := by
          unfold sort_priority
          rw [if_neg (hrestcode d0 hd0rest), if_neg hd0]
        have hprie : sort_priority e = 1 := by
          unfold sort_priority
          rw [if_neg (hrestcode e herest), if_pos hnull]
        have := sevent_le_pri (by rw [hrestsub d0 hd0rest, hrestsub e herest]) hled
        omega
  · -- the dated suffix is sorted by time
    have hdssub : List.Sublist (rest.dropWhile (fun e => e.time.isNone)) rest :=
      List.dropWhile_sublist _
    have hdspair : (rest.dropWhile (fun e => e.time.isNone)).Pairwise sevent_le :=
      hrestpair.sublist hdssub
    have hdsdated : ∀ e ∈ rest.dropWhile (fun e => e.time.isNone), e.time ≠ none := by
      cases hcase : rest.dropWhile (fun e => e.time.isNone) with
      | nil => simp
      | cons d0 ds2 =>
        have hd0 : d0.time ≠ none := by
          have hhd := List.head?_dropWhile_not (fun e => (e.time.isNone : Bool)) rest
          rw [hcase] at hhd
          simp only [List.head?_cons] at hhd
          intro hnull
          rw [hnull] at hhd
          simp at hhd
        intro e he hnull
        rcases List.mem_cons.mp he with rfl | he2
        · exact hd0 hnull
        · have hdspair2 : (d0 :: ds2).Pairwise sevent_le := hcase ▸ hdspair
          have hled : sevent_le d0 e := (List.pairwise_cons.mp hdspair2).1 e he2
          have hd0rest : d0 ∈ rest := hdssub.subset (hcase ▸ List.mem_cons_self _ _)
          have herest : e ∈ rest := hdssub.subset (hcase ▸ List.mem_cons_of_mem _ he2)
          have hprid0 : sort_priority d0 = 2 := by
            unfold sort_priority
            rw [if_neg (hrestcode d0 hd0rest), if_neg hd0]
          have hprie : sort_priority e = 1 := by
            unfold sort_priority
            rw [if_neg (hrestcode e herest), if_pos hnull]
          have := sevent_le_pri (by rw [hrestsub d0 hd0rest, hrestsub e herest]) hled
          omega
    have hpairtime :
        (rest.dropWhile (fun e => e.time.isNone)).Pairwise
          (fun a b => time_le a.time b.time = true) := by
      refine hdspair.imp_of_mem ?_
      intro a b ha hb2 hle
      have hpa : sort_priority a = 2 := by
        unfold sort_priority
        rw [if_neg (hrestcode a (hdssub.subset ha)), if_neg (hdsdated a ha)]
      have hpb : sort_priority b = 2 := by
        unfold sort_priority
        rw [if_neg (hrestcode b (hdssub.subset hb2)), if_neg (hdsdated b hb2)]
      exact sevent_le_time_le (by omega) hle
        (by rw [hrestsub a (hdssub.subset ha), hrestsub b (hdssub.subset hb2)])
    exact hpairtime.chain'

/-- Witness for C2: one subject with a dated and an undated medical event. -/
theorem C2_sort_invariant_witness :
    ∃ ns ds,
      eventsOf 1 (sort_events [(1, 1960)]
          [⟨1, some ⟨2000, 1, 1⟩, "MEDICAL//X//1", none⟩,
           ⟨1, none, "MEDICAL//Y//2", none⟩]) =
        birth_event 1 1960 :: (ns ++ ds) ∧
      (∀ e ∈ ns, e.time = none) ∧
      (∀ e ∈ ds, e.time ≠ none) ∧
      List.Chain' (fun a b => time_le a.time b.time = true) ds :=
  C2_sort_invariant [(1, 1960)]
    [⟨1, some ⟨2000, 1, 1⟩, "MEDICAL//X//1", none⟩,
     ⟨1, none, "MEDICAL//Y//2", none⟩]
    1 1960 (by decide) (by decide) (by decide)

/-! ## Code mapping (map_all_codes and the step_03 coalesce) -/

/-- The fixed closed set of laboratory term names of `map_all_codes`. -/
def lab_terms : List String :=
  ["MVC", "CRP", "Hemoglobin", "TIBC", "HbA1c", "plasma_viscosity", "ESR", "GGT",
   "lymphocyte", "platelets", "AST", "ALP", "ferritin", "MCH", "calcium_serum",
   "neutrophils", "h_p_ylori", "glucose", "cholesterol_triglycerides", "bilirubin",
   "anti_ttg", "plasma_proteins", "BP", "amylase", "ALT", "urea_serum", "CA125",
   "creatinine_serum", "albumin_serum", "WCC", "creatinine_urine", "iron"]

/-- `expand_codes` + join: the first codelist row whose expanded code list
contains the raw code, yielding its `MedicalTerm`. -/
def expand_lookup (codelist : List (String × List String)) (raw : String) :
    Option String :=
  (codelist.find? fun row => row.2.contains raw).map Prod.fst

/-- Level 1 of `map_all_codes`: the curated codelist match, formatted
`LAB//{Term}//{raw}` when the term is a laboratory term, else
`MEDICAL//{Term}//{raw}`. -/
def codelist_mapped (codelist : List (String × List String)) (raw : String) :
    Option String :=
  (expand_lookup codelist raw).map fun term =>
    (if lab_terms.contains term then "LAB//" else "MEDICAL//") ++ term ++ "//" ++ raw

/-- `map_all_codes` finalisation: `coalesce(codelist_mapped, fallback_mapped)`
followed by `fill_null("MEDICAL//NULL//{raw}")`. The fallback tier (SNOMED or
SNOMED→ICD-10 per the config flag) is abstracted as an arbitrary partial map. -/
def map_all_codes (codelist : List (String × List String))
    (fallback_mapped : String → Option String) (raw : String) : String :=
  ((codelist_mapped codelist raw).or (fallback_mapped raw)).getD
    ("MEDICAL//NULL//" ++ raw)

/-- The four-way `pl.coalesce` of step_03_create_event_streams (lines 122-135):
`coalesce(mapped_medcode, mapped_read, mapped_prodcode, mapped_dmd)`. -/
def mapped_code_step03 (medcodes_map read_map prodcodes_map dmd_map :
    String → Option String) (raw : String) : Option String :=
  (medcodes_map raw).or ((read_map raw).or ((prodcodes_map raw).or (dmd_map raw)))

/-- Claim C6: mapping precedence is first-hit-wins; a raw code matched by the
primary curated codelist resolves via the primary codelist's term even when a
later tier (read-code list, tertiary codelist, or generic/SNOMED fallback) also
matches it, both in `map_all_codes` and in the four-way coalesce of step_03. -/
theorem C6_mapping_precedence (codelist : List (String × List String))
    (fallback_mapped : String → Option String) (raw term other : String)
    (hprimary : expand_lookup codelist raw = some term)
    (hlater : fallback_mapped raw = some other) :
    map_all_codes codelist fallback_mapped raw =
      (if lab_terms.contains term then "LAB//" else "MEDICAL//") ++ term ++ "//" ++ raw
    ∧ ∀ m1 m2 m3 m4 : String → Option String, ∀ c : String, m1 raw = some c →
        mapped_code_step03 m1 m2 m3 m4 raw = some c := by
  constructor
  · unfold map_all_codes codelist_mapped
    rw [hprimary]
    rfl
  · intro m1 m2 m3 m4 c h1
    unfold mapped_code_step03
    rw [h1]
    rfl

/-- Witness for C6: a raw code present in both the primary codelist and the
fallback map resolves via the primary term. -/
theorem C6_mapping_precedence_witness :
    map_all_codes [("HbA1c", ["42W4.", "42W5."]), ("asthma", ["H33.."])]
        (fun r => if r = "42W4." then some "MEDICAL//FALLBACK//42W4." else none)
        "42W4." = "LAB//HbA1c//42W4."
    ∧ ∀ m1 m2 m3 m4 : String → Option String, ∀ c : String, m1 "42W4." = some c →
        mapped_code_step03 m1 m2 m3 m4 "42W4." = some c := by
  have h := C6_mapping_precedence
    [("HbA1c", ["42W4.", "42W5."]), ("asthma", ["H33.."])]
    (fun r => if r = "42W4." then some "MEDICAL//FALLBACK//42W4." else none)
    "42W4." "HbA1c" "MEDICAL//FALLBACK//42W4." (by decide) (by decide)
  exact ⟨by rw [h.1]; decide, h.2⟩

/-- Modelled from the spec: the generic read-code fallback (tier 4 of the
mapping hierarchy) built by `setup_lookup_tables` in src/utils/mapping_setup.py.
That file is missing from the sources (only its checkpoint with the SNOMED
strategy, its caller step_03_create_event_streams and the analysis tool
analyse_mappings.py are present), so the tier is embedded from the spec's
words: if the raw code resolved to a read code and that read code does not
start with `0`, `9`, `EMI`, or `^ES`, synthesize a code from the first 3
characters of the read code plus a fixed 5-character suffix; category is
`MEASUREMENT` when a numeric value is present, else `MEDICAL`. -/
def starts_with (s p : String) : Bool := p.data.isPrefixOf s.data

/-- The first `n` characters of a string. -/
def take_chars (s : String) (n : Nat) : String := ⟨s.data.take n⟩

def generic_read_fallback (rc : String) (suffix : String) (raw : String)
    (has_value : Bool) : Option String :=
  if starts_with rc "0" || starts_with rc "9" || starts_with rc "EMI" || starts_with rc "^ES"
  then none
  else some ((if has_value then "MEASUREMENT//" else "MEDICAL//") ++
    (take_chars rc 3 ++ suffix) ++ "//" ++ raw)

/-- Modelled from the spec: tier 4 applies only to raw codes that resolved to a
read code through the code-to-read-code dictionary of step 2. -/
def tier4_map (readcode_of : String → Option String) (suffix : String)
    (has_value : Bool) (raw : String) : Option String :=
  match readcode_of raw with
  | none => none
  | some rc => generic_read_fallback rc suffix raw has_value

/-- Claim C7: the generic read-code fallback applies only to raw codes that
resolved to a read code not starting with `0`, `9`, `EMI`, or `^ES` —
administrative read codes never produce a fallback mapping — and for eligible
codes it synthesizes the canonical code from the first 3 characters of the read
code plus the fixed 5-character suffix, with category `MEASUREMENT` when a
numeric value is present and `MEDICAL` otherwise. -/
theorem C7_generic_fallback (readcode_of : String → Option String)
    (suffix raw rc : String) (has_value : Bool)
    (hsuffix : suffix.length = 5) :
    (readcode_of raw = none → tier4_map readcode_of suffix has_value raw = none) ∧
    (readcode_of raw = some rc →
      (starts_with rc "0" || starts_with rc "9" ||
          starts_with rc "EMI" || starts_with rc "^ES") = true →
      tier4_map readcode_of suffix has_value raw = none) ∧
    (readcode_of raw = some rc →
      (starts_with rc "0" || starts_with rc "9" ||
          starts_with rc "EMI" || starts_with rc "^ES") = false →
      tier4_map readcode_of suffix has_value raw =
        some ((if has_value then "MEASUREMENT//" else "MEDICAL//") ++
          (take_chars rc 3 ++ suffix) ++ "//" ++ raw)) := by
  refine ⟨?_, ?_, ?_⟩
  · intro hnone
    unfold tier4_map
    rw [hnone]
  · intro hsome hadmin
    simp [tier4_map, hsome, generic_read_fallback, hadmin]
  · intro hsome hok
    simp [tier4_map, hsome, generic_read_fallback, hok]

/-- Witness for C7: an administrative read code (`9XYZ.`) yields no fallback,
a clinical one (`42W4.`) yields a MEASUREMENT code built from its first 3
characters plus the 5-character suffix. -/
theorem C7_generic_fallback_witness :
    ("00000".length = 5) ∧
    tier4_map (fun r => if r = "m9" then some "9XYZ." else
        if r = "m4" then some "42W4." else none) "00000" true "m9" = none ∧
    tier4_map (fun r => if r = "m9" then some "9XYZ." else
        if r = "m4" then some "42W4." else none) "00000" true "m4" =
      some "MEASUREMENT//42W00000//m4" := by
  refine ⟨by decide, ?_, ?_⟩
  · exact (C7_generic_fallback
      (fun r => if r = "m9" then some "9XYZ." else
        if r = "m4" then some "42W4." else none)
      "00000" "m9" "9XYZ." true (by decide)).2.1 (by decide) (by decide)
  · have h := (C7_generic_fallback
      (fun r => if r = "m9" then some "9XYZ." else
        if r = "m4" then some "42W4." else none)
      "00000" "m4" "42W4." true (by decide)).2.2 (by decide) (by decide)
    rw [h]
    decide

/-! ## Stage 05a: clean_events (LAB and MEASUREMENT value cleaning) -/

/-- One row of the sharded event stream read by `clean_events`. `time` is kept
as an abstract day index (this stage only compares it for the final sort);
`text_value` is always null in the stream and is omitted. -/
structure CEvent where
  subject_id : Int
  time : Option Int
  code : String
  numeric_value : Option ℚ
  numunitid : Option Int
deriving DecidableEq, Repr

/-- Drop every `/` from a string (the `str.replace_all("/", "")` step). -/
def strip_slashes (s : String) : String := ⟨s.data.filter (fun c => c != '/')⟩

/-- Skip through the first occurrence of `//` (the regex `//` anchor). -/
def after_marker : List Char → Option (List Char)
  | [] => none
  | '/' :: '/' :: rest => some rest
  | _ :: rest => after_marker rest

/-- The characters before the next occurrence of `//` (the non-greedy
`(.*?//)` group, without its trailing marker). -/
def upto_marker : List Char → Option (List Char)
  | [] => none
  | '/' :: '/' :: _ => some []
  | c :: rest => (upto_marker rest).map (c :: ·)

/-- `pl.col('code').str.extract(r"//(.*?//)", 1).str.replace_all("/", "")`:
the term between the first and second `//` of a canonical code, slashes
removed; null when the code has no such group. -/
def identifier_of (code : String) : Option String :=
  (after_marker code.data).bind fun rest =>
    (upto_marker rest).map fun t => strip_slashes ⟨t⟩

/-- One row of the curated cleaning-rules table. -/
structure Rule where
  identifierType : String
  identifier : String
  unitID : Int
  conversionFactor : ℚ
  conversionBias : Option ℚ
  validMin : ℚ
  validMax : ℚ
deriving DecidableEq, Repr

/-- The `(Identifier, UnitID)` left join against the `MedicalTerm` rules,
embedded as a first-match lookup; polars join keys never match on null. -/
def find_lab_rule (rules : List Rule) (e : CEvent) : Option Rule :=
  match identifier_of e.code, e.numunitid with
  | some i, some u =>
      (rules.filter fun r => r.identifierType == "MedicalTerm").find?
        fun r => r.identifier == i && r.unitID == u
  | _, _ => none

/-- The LAB cleaning of one valued event: `standardized = raw * factor +
bias.fill_null(0)`; the cleaned value is `standardized` when it lies in
`[ValidMin, ValidMax]` and null otherwise. A row with no matching rule gets a
null standardized value, so its cleaned value is null as well. The row itself
(subject, time, code, unit) is kept unchanged. -/
def clean_lab_event (rules : List Rule) (e : CEvent) : CEvent :=
  match e.numeric_value with
  | none => e
  | some v =>
    match find_lab_rule rules e with
    | none => { e with numeric_value := none }
    | some r =>
        let s := v * r.conversionFactor + r.conversionBias.getD 0
        { e with numeric_value :=
            if r.validMin ≤ s ∧ s ≤ r.validMax then some s else none }

/-- polars `median` over a group: middle element of the sorted values, or the
mean of the two middle elements for an even count. -/
def medianQ (xs : List ℚ) : ℚ :=
  let s := List.insertionSort (fun a b : ℚ => a ≤ b) xs
  let n := s.length
  if n = 0 then 0
  else if n % 2 = 1 then s.getD (n / 2) 0
  else (s.getD (n / 2 - 1) 0 + s.getD (n / 2) 0) / 2

def meanQ (xs : List ℚ) : ℚ := xs.sum / xs.length

/-- The square of polars `std` (sample standard deviation, `ddof = 1`); only
meaningful when the list has at least two elements — `std` itself is null
below that, which the callers handle separately. -/
def sampleVarQ (xs : List ℚ) : ℚ :=
  if xs.length ≤ 1 then 0
  else ((xs.map fun x => (x - meanQ xs) ^ 2).sum) / ((xs.length : ℚ) - 1)

/-- Executable form of the MEASUREMENT keep condition
`lower_bound ≤ v ≤ upper_bound` with `lower = max(0, median − 3·std)` and
`upper = median + 3·std`, written without the square root;
`meas_keep_iff` proves it equivalent to the source's formula. -/
def meas_keep (med var v : ℚ) : Bool :=
  decide (0 ≤ v) && (decide (med ≤ v) || decide ((med - v) ^ 2 ≤ 9 * var)) &&
    (decide (v ≤ med) || decide ((v - med) ^ 2 ≤ 9 * var))

def has_value (e : CEvent) : Bool := e.numeric_value.isSome

def is_lab (e : CEvent) : Bool := has_value e && starts_with e.code "LAB//"

def is_meas (e : CEvent) : Bool := has_value e && starts_with e.code "MEASUREMENT//"

/-- The values of every MEASUREMENT instance of a term across the whole
stream (the `group_by('Identifier')` statistics input). -/
def meas_values (stream : List CEvent) (i : String) : List ℚ :=
  (stream.filter fun x => is_meas x && identifier_of x.code == some i).filterMap
    (fun x => x.numeric_value)

/-- The MEASUREMENT branch of `clean_events`: join the per-term stats back and
`filter` on `is_between(lower_bound, upper_bound)` — a filter, so failing rows
are removed, not nulled. A term with fewer than two valued instances has a
null `std`, hence null bounds, and its rows are removed too; likewise rows
whose code has no extractable identifier never rejoin their stats. -/
def clean_meas_filter (stream : List CEvent) : List CEvent :=
  (stream.filter is_meas).filter fun e =>
    match identifier_of e.code, e.numeric_value with
    | some i, some v =>
        let vs := meas_values stream i
        decide (2 ≤ vs.length) && meas_keep (medianQ vs) (sampleVarQ vs) v
    | _, _ => false

/-- The recombination of `clean_events`: null-valued events, valued events of
other categories, the cleaned LAB stream and the filtered MEASUREMENT stream.
(The subsequent `.sort("subject_id", "time")` only permutes rows and is applied
by the sharded writer model.) -/
def clean_events (rules : List Rule) (stream : List CEvent) : List CEvent :=
  (stream.filter fun e => !has_value e) ++
  (stream.filter fun e =>
    has_value e && !starts_with e.code "LAB//" && !starts_with e.code "MEASUREMENT//") ++
  ((stream.filter is_lab).map (clean_lab_event rules)) ++
  clean_meas_filter stream

/-! Bridge between the executable squared form and the source's
`median ± 3·std` bounds with `std = sqrt(variance)`. -/

theorem le_three_sqrt_iff (x var : ℚ) (hvar : 0 ≤ var) :
    ((x : ℝ) ≤ 3 * Real.sqrt (var : ℝ)) ↔ (x ≤ 0 ∨ x ^ 2 ≤ 9 * var) := by
  have hs : (0 : ℝ) ≤ Real.sqrt (var : ℝ) := Real.sqrt_nonneg _
  have hs2 : Real.sqrt (var : ℝ) ^ 2 = (var : ℝ) := Real.sq_sqrt (by exact_mod_cast hvar)
  constructor
  · intro h
    by_cases hx : x ≤ 0
    · exact Or.inl hx
    · right
      push_neg at hx
      have hxR : (0 : ℝ) < (x : ℝ) := by exact_mod_cast hx
      have hsq : (x : ℝ) ^ 2 ≤ 9 * (var : ℝ) := by nlinarith [hs, hs2]
      exact_mod_cast hsq
  · rintro (h | h)
    · have hxR : (x : ℝ) ≤ 0 := by exact_mod_cast h
      nlinarith [hs]
    · have hR : (x : ℝ) ^ 2 ≤ 9 * (var : ℝ) := by exact_mod_cast h
      nlinarith [hs, hs2]

theorem meas_keep_eq_true_iff (med var v : ℚ) :
    meas_keep med var v = true ↔
      (0 ≤ v ∧ (med ≤ v ∨ (med - v) ^ 2 ≤ 9 * var) ∧
        (v ≤ med ∨ (v - med) ^ 2 ≤ 9 * var)) := by
  unfold meas_keep
  rw [Bool.and_eq_true, Bool.and_eq_true, Bool.or_eq_true, Bool.or_eq_true]
  simp only [decide_eq_true_eq]
  tauto

theorem meas_keep_iff (med var v : ℚ) (hvar : 0 ≤ var) :
    meas_keep med var v = true ↔
      (max 0 ((med : ℝ) - 3 * Real.sqrt (var : ℝ)) ≤ (v : ℝ) ∧
        (v : ℝ) ≤ (med : ℝ) + 3 * Real.sqrt (var : ℝ)) := by
  have h1 := le_three_sqrt_iff (med - v) var hvar
  have h2 := le_three_sqrt_iff (v - med) var hvar
  push_cast at h1 h2
  rw [meas_keep_eq_true_iff, max_le_iff]
  constructor
  · rintro ⟨h0, hlow, hhigh⟩
    refine ⟨⟨by exact_mod_cast h0, ?_⟩, ?_⟩
    · have hle : ((med : ℝ) - v) ≤ 3 * Real.sqrt (var : ℝ) := by
        apply h1.mpr
        rcases hlow with h | h
        · left; exact_mod_cast sub_nonpos.mpr h
        · right; exact_mod_cast h
      linarith
    · have hle : ((v : ℝ) - med) ≤ 3 * Real.sqrt (var : ℝ) := by
        apply h2.mpr
        rcases hhigh with h | h
        · left; exact_mod_cast sub_nonpos.mpr h
        · right; exact_mod_cast h
      linarith
  · rintro ⟨⟨h0, hlow⟩, hhigh⟩
    refine ⟨by exact_mod_cast h0, ?_, ?_⟩
    · have := h1.mp (by linarith)
      rcases this with h | h
      · left
        have : (med : ℚ) - v ≤ 0 := by exact_mod_cast h
        linarith
      · right
        exact_mod_cast h
    · have := h2.mp (by linarith)
      rcases this with h | h
      · left
        have : (v : ℚ) - med ≤ 0 := by exact_mod_cast h
        linarith
      · right
        exact_mod_cast h

/-- The sample variance is non-negative. -/
theorem sampleVarQ_nonneg (xs : List ℚ) : 0 ≤ sampleVarQ xs := by
  unfold sampleVarQ
  split
  · exact le_refl 0
  · rename_i h
    push_neg at h
    apply div_nonneg
    · apply List.sum_nonneg
      intro x hx
      obtain ⟨y, _, rfl⟩ := List.mem_map.mp hx
      exact sq_nonneg _
    · have : (2 : ℚ) ≤ (xs.length : ℚ) := by exact_mod_cast h
      linarith

/-- A canonical code cannot carry both the `LAB//` and the `MEASUREMENT//`
category. -/
theorem not_lab_and_meas (c : String) (h1 : starts_with c "LAB//" = true)
    (h2 : starts_with c "MEASUREMENT//" = true) : False := by
  unfold starts_with at h1 h2
  rw [List.isPrefixOf_iff_prefix] at h1 h2
  obtain ⟨t1, ht1⟩ := h1
  obtain ⟨t2, ht2⟩ := h2
  rw [← ht1] at ht2
  simp [String.data] at ht2

/-- LAB cleaning never touches the identity of a row: subject, time, code and
unit are preserved; only `numeric_value` may change. -/
theorem clean_lab_event_keeps (rules : List Rule) (x : CEvent) :
    (clean_lab_event rules x).subject_id = x.subject_id ∧
      (clean_lab_event rules x).time = x.time ∧
      (clean_lab_event rules x).code = x.code ∧
      (clean_lab_event rules x).numunitid = x.numunitid := by
  unfold clean_lab_event
  cases x.numeric_value with
  | none => exact ⟨rfl, rfl, rfl, rfl⟩
  | some v =>
    cases find_lab_rule rules x with
    | none => exact ⟨rfl, rfl, rfl, rfl⟩
    | some r => exact ⟨rfl, rfl, rfl, rfl⟩

/-- Exact membership in the MEASUREMENT branch of `clean_events`. -/
theorem clean_meas_filter_mem (stream : List CEvent) (e : CEvent) :
    e ∈ clean_meas_filter stream ↔
      e ∈ stream ∧ is_meas e = true ∧
      ∃ i v, identifier_of e.code = some i ∧ e.numeric_value = some v ∧
        2 ≤ (meas_values stream i).length ∧
        meas_keep (medianQ (meas_values stream i))
          (sampleVarQ (meas_values stream i)) v = true := by
  unfold clean_meas_filter
  rw [List.mem_filter, List.mem_filter]
  constructor
  · rintro ⟨⟨hmem, hm⟩, hpred⟩
    refine ⟨hmem, hm, ?_⟩
    cases hi : identifier_of e.code with
    | none => rw [hi] at hpred; cases hpred
    | some i =>
      cases hv : e.numeric_value with
      | none => rw [hi, hv] at hpred; cases hpred
      | some v =>
        rw [hi, hv] at hpred
        simp only [Bool.and_eq_true, decide_eq_true_eq] at hpred
        exact ⟨i, v, rfl, rfl, hpred.1, hpred.2⟩
  · rintro ⟨hmem, hm, i, v, hi, hv, hlen, hkeep⟩
    refine ⟨⟨hmem, hm⟩, ?_⟩
    rw [hi, hv]
    simp only [Bool.and_eq_true, decide_eq_true_eq]
    exact ⟨hlen, hkeep⟩

/-- A MEASUREMENT event reaches the recombined output of `clean_events`
exactly through the MEASUREMENT filter branch. -/
theorem clean_events_meas_mem (rules : List Rule) (stream : List CEvent)
    (e : CEvent) (hm : is_meas e = true) :
    e ∈ clean_events rules stream ↔ e ∈ clean_meas_filter stream := by
  have hmv : has_value e = true := (Bool.and_eq_true _ _ ▸ hm).1
  have hms : starts_with e.code "MEASUREMENT//" = true := (Bool.and_eq_true _ _ ▸ hm).2
  unfold clean_events
  rw [List.mem_append, List.mem_append, List.mem_append]
  constructor
  · rintro (((h | h) | h) | h)
    · have := (List.mem_filter.mp h).2
      rw [hmv] at this
      cases this
    · have := (List.mem_filter.mp h).2
      simp only [Bool.and_eq_true, Bool.not_eq_true'] at this
      rw [hms] at this
      exact absurd this.2 (by simp)
    · obtain ⟨x, hx, hex⟩ := List.mem_map.mp h
      have hxl := (List.mem_filter.mp hx).2
      have hlab : starts_with x.code "LAB//" = true := (Bool.and_eq_true _ _ ▸ hxl).2
      have hcode : e.code = x.code := by
        rw [← hex]
        exact (clean_lab_event_keeps rules x).2.2.1
      rw [hcode] at hms
      exact absurd hms (fun h2 => not_lab_and_meas x.code hlab h2)
    · exact h
  · intro h
    exact Or.inr h

/-- A concrete MEASUREMENT stream: 15 readings of 0 and one reading of 4 for
the same term. Its per-term stats are median 0 and sample variance 1, so the
outlier bound is `0 + 3·1 = 3` and the reading of 4 falls outside. -/
def C3_input : List CEvent :=
  [⟨1, some 1, "MEASUREMENT//BMI//m1", some 0, none⟩,
   ⟨2, some 2, "MEASUREMENT//BMI//m1", some 0, none⟩,
   ⟨3, some 3, "MEASUREMENT//BMI//m1", some 0, none⟩,
   ⟨4, some 4, "MEASUREMENT//BMI//m1", some 0, none⟩,
   ⟨5, some 5, "MEASUREMENT//BMI//m1", some 0, none⟩,
   ⟨6, some 6, "MEASUREMENT//BMI//m1", some 0, none⟩,
   ⟨7, some 7, "MEASUREMENT//BMI//m1", some 0, none⟩,
   ⟨8, some 8, "MEASUREMENT//BMI//m1", some 0, none⟩,
   ⟨9, some 9, "MEASUREMENT//BMI//m1", some 0, none⟩,
   ⟨10, some 10, "MEASUREMENT//BMI//m1", some 0, none⟩,
   ⟨11, some 11, "MEASUREMENT//BMI//m1", some 0, none⟩,
   ⟨12, some 12, "MEASUREMENT//BMI//m1", some 0, none⟩,
   ⟨13, some 13, "MEASUREMENT//BMI//m1", some 0, none⟩,
   ⟨14, some 14, "MEASUREMENT//BMI//m1", some 0, none⟩,
   ⟨15, some 15, "MEASUREMENT//BMI//m1", some 0, none⟩,
   ⟨16, some 16, "MEASUREMENT//BMI//m1", some 4, none⟩]

/-- Counterexample to Claim C3: the value cleaning stage does remove rows. In
`C3_input` the out-of-range MEASUREMENT reading (subject 16, value 4) is
neither kept with its value nor kept with a nulled value — the row is gone
from the recombined output, so the output row set differs from the input. -/
theorem C3_counterexample :
    (⟨16, some 16, "MEASUREMENT//BMI//m1", some 4, none⟩ : CEvent) ∈ C3_input ∧
    (⟨16, some 16, "MEASUREMENT//BMI//m1", some 4, none⟩ : CEvent) ∉
      clean_events [] C3_input ∧
    (⟨16, some 16, "MEASUREMENT//BMI//m1", none, none⟩ : CEvent) ∉
      clean_events [] C3_input := by
  refine ⟨by simp [C3_input], ?_, ?_⟩
  · intro hmem
    rw [clean_events_meas_mem [] C3_input
        ⟨16, some 16, "MEASUREMENT//BMI//m1", some 4, none⟩ rfl,
      clean_meas_filter_mem] at hmem
    obtain ⟨_, _, i, v, hi, hv, hlen, hkeep⟩ := hmem
    obtain rfl : "BMI" = i := Option.some.inj hi
    obtain rfl : (4 : ℚ) = v := Option.some.inj hv
    have hvs : meas_values C3_input "BMI" =
        [0, 0, 0, 0, 0, 0, 0, 0, 0, 0, 0, 0, 0, 0, 0, 4] := rfl
    have hmed : medianQ [0, 0, 0, 0, 0, 0, 0, 0, 0, 0, 0, 0, 0, 0, 0, (4 : ℚ)] = 0 := by
      norm_num [medianQ, List.insertionSort, List.orderedInsert]
    have hvar : sampleVarQ [0, 0, 0, 0, 0, 0, 0, 0, 0, 0, 0, 0, 0, 0, 0, (4 : ℚ)] = 1 := by
      norm_num [sampleVarQ, meanQ]
    rw [hvs, hmed, hvar, meas_keep_eq_true_iff] at hkeep
    norm_num at hkeep
  · intro hmem
    have hA : C3_input.filter (fun e => !has_value e) = [] := rfl
    have hB : C3_input.filter (fun e =>
        has_value e && !starts_with e.code "LAB//" &&
          !starts_with e.code "MEASUREMENT//") = [] := rfl
    have hC : C3_input.filter is_lab = [] := rfl
    unfold clean_events at hmem
    rw [hA, hB, hC] at hmem
    simp only [List.map_nil, List.nil_append] at hmem
    obtain ⟨_, _, i, v, hi, hv, _, _⟩ := (clean_meas_filter_mem _ _).mp hmem
    cases hv

/-- Claim C3 (amended): the value cleaning stage removes out-of-range
MEASUREMENT rows instead of nulling them. A MEASUREMENT event survives the
recombined output of `clean_events` exactly when its term has at least two
valued instances (otherwise the per-term `std` is null and the row is dropped)
and its value lies inside `[max(0, median − 3·std), median + 3·std]`, in which
case its value is kept unchanged; the recombined row set is the input minus the
removed MEASUREMENT rows. -/
theorem C3_measurement_filter (rules : List Rule) (stream : List CEvent)
    (e : CEvent) (i : String) (v : ℚ)
    (hm : is_meas e = true)
    (hid : identifier_of e.code = some i)
    (hv : e.numeric_value = some v) :
    e ∈ clean_events rules stream ↔
      (e ∈ stream ∧ 2 ≤ (meas_values stream i).length ∧
        max 0 ((medianQ (meas_values stream i) : ℝ) -
            3 * Real.sqrt (sampleVarQ (meas_values stream i) : ℝ)) ≤ (v : ℝ) ∧
        (v : ℝ) ≤ (medianQ (meas_values stream i) : ℝ) +
          3 * Real.sqrt (sampleVarQ (meas_values stream i) : ℝ)) := by
  rw [clean_events_meas_mem rules stream e hm, clean_meas_filter_mem]
  constructor
  · rintro ⟨hmem, _, i2, v2, hi2, hv2, hlen, hkeep⟩
    rw [hid] at hi2
    obtain rfl : i = i2 := Option.some.inj hi2
    rw [hv] at hv2
    obtain rfl : v = v2 := Option.some.inj hv2
    have hb := (meas_keep_iff _ _ _ (sampleVarQ_nonneg _)).mp hkeep
    exact ⟨hmem, hlen, hb.1, hb.2⟩
  · rintro ⟨hmem, hlen, h1, h2⟩
    exact ⟨hmem, hm, i, v, hid, hv, hlen,
      (meas_keep_iff _ _ _ (sampleVarQ_nonneg _)).mpr ⟨h1, h2⟩⟩

/-- Witness for the amended C3, at an in-range reading of `C3_input`. -/
theorem C3_measurement_filter_witness :
    (⟨1, some 1, "MEASUREMENT//BMI//m1", some 0, none⟩ : CEvent) ∈
        clean_events [] C3_input ↔
      ((⟨1, some 1, "MEASUREMENT//BMI//m1", some 0, none⟩ : CEvent) ∈ C3_input ∧
        2 ≤ (meas_values C3_input "BMI").length ∧
        max 0 ((medianQ (meas_values C3_input "BMI") : ℝ) -
            3 * Real.sqrt (sampleVarQ (meas_values C3_input "BMI") : ℝ)) ≤ ((0 : ℚ) : ℝ) ∧
        ((0 : ℚ) : ℝ) ≤ (medianQ (meas_values C3_input "BMI") : ℝ) +
          3 * Real.sqrt (sampleVarQ (meas_values C3_input "BMI") : ℝ)) :=
  C3_measurement_filter [] C3_input
    ⟨1, some 1, "MEASUREMENT//BMI//m1", some 0, none⟩ "BMI" 0 rfl rfl rfl

/-- Counterexample to Claim C4: a LAB event whose `(term, unit_id)` has no
matching cleaning rule does NOT pass through unchanged — the left join leaves
a null conversion factor, the standardized value is null, and the
`when/otherwise` nulls the stored value (the row itself is kept). -/
theorem C4_counterexample :
    (⟨1, some 1, "LAB//HbA1c//42W4.", some 7, some 1⟩ : CEvent).numeric_value =
        some 7 ∧
    (clean_lab_event [] ⟨1, some 1, "LAB//HbA1c//42W4.", some 7, some 1⟩).numeric_value =
        none ∧
    (clean_lab_event [] ⟨1, some 1, "LAB//HbA1c//42W4.", some 7, some 1⟩).code =
        "LAB//HbA1c//42W4." :=
  ⟨rfl, rfl, rfl⟩

/-- Claim C4 (amended): for every LAB event joined to a cleaning rule by
`(term, unit_id)`, the cleaned value equals `raw * conversion_factor +
conversion_bias` (bias 0 when absent) if that standardized value lies within
`[valid_min, valid_max]`, and is null (row kept) otherwise; a LAB event with
no matching rule also has its value nulled (row kept) — it does not pass
through unchanged. -/
theorem C4_lab_cleaning (rules : List Rule) (e : CEvent) (v : ℚ)
    (hv : e.numeric_value = some v) :
    (∀ r, find_lab_rule rules e = some r →
      clean_lab_event rules e =
        { e with numeric_value :=
            if r.validMin ≤ v * r.conversionFactor + r.conversionBias.getD 0 ∧
                v * r.conversionFactor + r.conversionBias.getD 0 ≤ r.validMax
            then some (v * r.conversionFactor + r.conversionBias.getD 0)
            else none }) ∧
    (find_lab_rule rules e = none →
      clean_lab_event rules e = { e with numeric_value := none }) := by
  constructor
  · intro r hr
    unfold clean_lab_event
    rw [hv, hr]
  · intro hr
    unfold clean_lab_event
    rw [hv, hr]

/-- Witness for the amended C4, at the spec's example rule
(factor 0.1, no bias, valid range [5, 20]) and raw value 150. -/
theorem C4_lab_cleaning_witness :
    clean_lab_event [⟨"MedicalTerm", "HbA1c", 1, 1 / 10, none, 5, 20⟩]
        ⟨1, some 1, "LAB//HbA1c//42W4.", some 150, some 1⟩ =
      { (⟨1, some 1, "LAB//HbA1c//42W4.", some 150, some 1⟩ : CEvent) with
          numeric_value :=
            if (5 : ℚ) ≤ 150 * (1 / 10) + (none : Option ℚ).getD 0 ∧
                (150 : ℚ) * (1 / 10) + (none : Option ℚ).getD 0 ≤ 20
            then some ((150 : ℚ) * (1 / 10) + (none : Option ℚ).getD 0)
            else none } :=
  (C4_lab_cleaning [⟨"MedicalTerm", "HbA1c", 1, 1 / 10, none, 5, 20⟩]
      ⟨1, some 1, "LAB//HbA1c//42W4.", some 150, some 1⟩ 150 rfl).1
    ⟨"MedicalTerm", "HbA1c", 1, 1 / 10, none, 5, 20⟩ rfl

/-- The spec's numeric examples, fully evaluated: raw 150 standardizes to 15.0
and is kept; raw 500 standardizes to 50.0 and is nulled. -/
theorem lab_cleaning_spec_examples :
    (clean_lab_event [⟨"MedicalTerm", "HbA1c", 1, 1 / 10, none, 5, 20⟩]
        ⟨1, some 1, "LAB//HbA1c//42W4.", some 150, some 1⟩).numeric_value =
      some 15 ∧
    (clean_lab_event [⟨"MedicalTerm", "HbA1c", 1, 1 / 10, none, 5, 20⟩]
        ⟨1, some 1, "LAB//HbA1c//42W4.", some 500, some 1⟩).numeric_value =
      none := by
  have h1 : find_lab_rule [⟨"MedicalTerm", "HbA1c", 1, 1 / 10, none, 5, 20⟩]
      ⟨1, some 1, "LAB//HbA1c//42W4.", some 150, some 1⟩ =
      some ⟨"MedicalTerm", "HbA1c", 1, 1 / 10, none, 5, 20⟩ := rfl
  have h2 : find_lab_rule [⟨"MedicalTerm", "HbA1c", 1, 1 / 10, none, 5, 20⟩]
      ⟨1, some 1, "LAB//HbA1c//42W4.", some 500, some 1⟩ =
      some ⟨"MedicalTerm", "HbA1c", 1, 1 / 10, none, 5, 20⟩ := rfl
  constructor
  · unfold clean_lab_event
    rw [show (⟨1, some 1, "LAB//HbA1c//42W4.", some 150, some 1⟩ : CEvent).numeric_value =
        some 150 from rfl, h1]
    norm_num
  · unfold clean_lab_event
    rw [show (⟨1, some 1, "LAB//HbA1c//42W4.", some 500, some 1⟩ : CEvent).numeric_value =
        some 500 from rfl, h2]
    norm_num

/-! ## Drug episode consolidation (src/utils/drug_episodes.py) -/

/-- One prescription row of a `(subject_id, drug_group)` group: issue time (day
index) and nullable duration in days. -/
structure Rx where
  time : Int
  duration : Option Int
deriving DecidableEq, Repr

/-- The `.sort('subject_id', 'drug_group', 'time')` step, restricted to one
group: a stable sort by time. -/
def sort_rx (rxs : List Rx) : List Rx :=
  List.insertionSort (fun a b : Rx => a.time ≤ b.time) rxs

/-- `pl.col('time').diff()`: the day gaps between consecutive prescriptions
(the first row's null diff is what the median/std aggregations skip). -/
def gaps (ts : List Int) : List Int := List.zipWith (fun a b => a - b) ts.tail ts

/-- The group's gap median (`median_diff`). -/
def group_med (rxs : List Rx) : ℚ :=
  medianQ ((gaps (rxs.map (fun r => r.time))).map (fun g => (g : ℚ)))

/-- The square of the group's gap standard deviation (`std_diff` with
`fill_null(0)`: null — fewer than two gaps — becomes 0). -/
def group_var (rxs : List Rx) : ℚ :=
  sampleVarQ ((gaps (rxs.map (fun r => r.time))).map (fun g => (g : ℚ)))

/-- Executable form of the episode break test
`time_diff_days > median_diff + std_diff + 14`, written without the square
root; `gap_exceeds_iff` proves it equivalent to the source's formula. -/
def gap_exceeds (med var : ℚ) (gap : Int) : Bool :=
  decide (0 < (gap : ℚ) - med - 14) && decide (var < ((gap : ℚ) - med - 14) ^ 2)

/-- The `is_new_episode`/`cumsum`/`group_by(episode_id)` combination: walk the
time-sorted group, keeping the current episode as `(c :: cs).reverse` where `c`
is the most recent prescription, and break exactly when the gap to `c`
exceeds the threshold. -/
def split_episodes_go (med var : ℚ) (c : Rx) (cs : List Rx) :
    List Rx → List (List Rx)
  | [] => [(c :: cs).reverse]
  | r :: rest =>
      if gap_exceeds med var (r.time - c.time)
      then (c :: cs).reverse :: split_episodes_go med var r [] rest
      else split_episodes_go med var r (c :: cs) rest

/-- The first prescription always opens an episode. -/
def split_episodes (med var : ℚ) : List Rx → List (List Rx)
  | [] => []
  | r :: rest => split_episodes_go med var r [] rest

/-- `start_time = pl.col('time').min()` over the episode. -/
def min_time (seg : List Rx) : Option Int := (seg.map (fun r => r.time)).min?

/-- `pl.col('time').max()` over the episode. -/
def max_time (seg : List Rx) : Option Int := (seg.map (fun r => r.time)).max?

/-- `pl.col('duration').last().fill_null(60)`: the last row's duration, 60 when
unrecorded. -/
def last_duration (seg : List Rx) : Int :=
  ((seg.getLast?).bind (fun r => r.duration)).getD 60

/-- One aggregated episode record: `(start_time, end_time)` with
`end_time = max(time) + duration(days = last duration)`. -/
def episode_of (seg : List Rx) : Option (Int × Int) :=
  match min_time seg, max_time seg with
  | some a, some b => some (a, b + last_duration seg)
  | _, _ => none

/-- `create_drug_episodes` on one `(subject_id, drug_group)` group: sort by
time, compute the gap statistics, split into episodes, and aggregate each. -/
def create_drug_episodes_group (rxs : List Rx) : List (Int × Int) :=
  let sorted := sort_rx rxs
  (split_episodes (group_med sorted) (group_var sorted) sorted).filterMap episode_of

/-- The emitted stream events of one group: one `START_PRESCRIPTION//…` event
at each episode's start time followed by one `END_PRESCRIPTION//…` event at
each episode's end time (`str.replace` of the `PRESCRIPTION//` head by
`START_`/`END_` + `PRESCRIPTION//` is string prepending). -/
def episode_event_codes (drug_group : String) (eps : List (Int × Int)) :
    List (Int × String) :=
  eps.map (fun ep => (ep.1, "START_" ++ drug_group)) ++
    eps.map (fun ep => (ep.2, "END_" ++ drug_group))

/-- The step_03 chunk assembly: birth events, the non-prescription slice of the
mapped events, and the episode events — the individual prescription rows are
not part of it. -/
def chunk_assembly (sids : List Int) (mapped eps : List (Int × String)) :
    List (Int × String) :=
  sids.map (fun s => (s, "MEDS_BIRTH")) ++
    mapped.filter (fun e => !starts_with e.2 "PRESCRIPTION//") ++ eps

/-- Inside an episode two consecutive prescriptions are within the threshold. -/
def within_gap (med var : ℚ) (a b : Rx) : Prop :=
  gap_exceeds med var (b.time - a.time) = false

/-- Across an episode boundary the gap exceeds the threshold. -/
def boundary_gap (med var : ℚ) (s1 s2 : List Rx) : Prop :=
  ∀ a ∈ s1.getLast?, ∀ b ∈ s2.head?, gap_exceeds med var (b.time - a.time) = true

/-- Full invariant of the episode splitter. -/
theorem split_episodes_go_spec (med var : ℚ) (l : List Rx) :
    ∀ (c : Rx) (cs : List Rx),
      (split_episodes_go med var c cs l).join = (c :: cs).reverse ++ l ∧
      (∀ s ∈ split_episodes_go med var c cs l, s ≠ []) ∧
      (∀ s, (split_episodes_go med var c cs l).head? = some s →
        s.head? = (c :: cs).getLast?) ∧
      (List.Chain' (within_gap med var) (c :: cs).reverse →
        ∀ s ∈ split_episodes_go med var c cs l, List.Chain' (within_gap med var) s) ∧
      List.Chain' (boundary_gap med var) (split_episodes_go med var c cs l) := by
  induction l with
  | nil =>
    intro c cs
    refine ⟨by simp [split_episodes_go], ?_, ?_, ?_, ?_⟩
    · intro s hs
      rw [split_episodes_go] at hs
      rcases List.mem_cons.mp hs with rfl | h
      · simp
      · cases h
    · intro s hs
      rw [split_episodes_go] at hs
      simp only [List.head?_cons, Option.some.injEq] at hs
      rw [← hs, List.head?_reverse]
    · intro hchain s hs
      rw [split_episodes_go] at hs
      rcases List.mem_cons.mp hs with rfl | h
      · exact hchain
      · cases h
    · rw [split_episodes_go]
      simp
  | cons r rest ih =>
    intro c cs
    by_cases hexc : gap_exceeds med var (r.time - c.time) = true
    · have heq : split_episodes_go med var c cs (r :: rest) =
          (c :: cs).reverse :: split_episodes_go med var r [] rest := by
        rw [split_episodes_go, if_pos hexc]
      obtain ⟨ihjoin, ihne, ihhead, ihchain, ihbnd⟩ := ih r []
      refine ⟨?_, ?_, ?_, ?_, ?_⟩
      · rw [heq]
        simp only [List.join_cons, ihjoin]
        simp
      · intro s hs
        rw [heq] at hs
        rcases List.mem_cons.mp hs with rfl | h
        · simp
        · exact ihne s h
      · intro s hs
        rw [heq] at hs
        simp only [List.head?_cons, Option.some.injEq] at hs
        rw [← hs, List.head?_reverse]
      · intro hchain s hs
        rw [heq] at hs
        rcases List.mem_cons.mp hs with rfl | h
        · exact hchain
        · exact ihchain (by simp) s h
      · rw [heq, List.chain'_cons']
        refine ⟨?_, ihbnd⟩
        intro s2 hs2
        intro a ha b hb
        -- a is the last of the closed segment = c; b is the head of the next = r
        rw [List.getLast?_reverse] at ha
        simp only [List.head?_cons, Option.mem_def, Option.some.injEq] at ha
        have hb2 := ihhead s2 hs2
        rw [hb2] at hb
        simp only [List.getLast?_singleton, Option.mem_def, Option.some.injEq] at hb
        rw [← ha, ← hb]
        exact hexc
    · have hexcf : gap_exceeds med var (r.time - c.time) = false :=
        Bool.not_eq_true _ ▸ hexc
      have heq : split_episodes_go med var c cs (r :: rest) =
          split_episodes_go med var r (c :: cs) rest := by
        rw [split_episodes_go, if_neg hexc]
      obtain ⟨ihjoin, ihne, ihhead, ihchain, ihbnd⟩ := ih r (c :: cs)
      refine ⟨?_, ?_, ?_, ?_, ?_⟩
      · rw [heq, ihjoin]
        simp
      · intro s hs
        rw [heq] at hs
        exact ihne s hs
      · intro s hs
        rw [heq] at hs
        rw [ihhead s hs, List.getLast?_cons_cons]
      · intro hchain s hs
        rw [heq] at hs
        refine ihchain ?_ s hs
        simp only [List.reverse_cons]
        rw [List.chain'_append]
        refine ⟨by simpa using hchain, by simp, ?_⟩
        intro x hx y hy
        simp at hx hy
        subst hx
        subst hy
        exact hexcf
      · rw [heq]
        exact ihbnd

theorem sqrt_lt_q (x var : ℚ) (hvar : 0 ≤ var) :
    Real.sqrt (var : ℝ) < (x : ℝ) ↔ (0 < x ∧ var < x ^ 2) := by
  constructor
  · intro h
    have hx : (0 : ℝ) < (x : ℝ) := lt_of_le_of_lt (Real.sqrt_nonneg _) h
    have hxq : 0 < x := by exact_mod_cast hx
    refine ⟨hxq, ?_⟩
    have := (Real.sqrt_lt' hx).mp h
    exact_mod_cast this
  · rintro ⟨hx, h⟩
    have hxR : (0 : ℝ) < (x : ℝ) := by exact_mod_cast hx
    apply (Real.sqrt_lt' hxR).mpr
    exact_mod_cast h

/-- The executable break test agrees with the source's
`gap > median + std + 14` with `std = sqrt(variance)`. -/
theorem gap_exceeds_iff (med var : ℚ) (gap : Int) (hvar : 0 ≤ var) :
    gap_exceeds med var gap = true ↔
      (med : ℝ) + Real.sqrt (var : ℝ) + 14 < ((gap : ℤ) : ℝ) := by
  unfold gap_exceeds
  rw [Bool.and_eq_true]
  simp only [decide_eq_true_eq]
  rw [← sqrt_lt_q ((gap : ℚ) - med - 14) var hvar]
  push_cast
  constructor <;> intro h <;> linarith

instance : Std.Antisymm (fun x1 x2 : Int => x1 ≤ x2) :=
  ⟨by intro a b h1 h2; exact le_antisymm h1 h2⟩

theorem min_time_spec (seg : List Rx) (h : seg ≠ []) :
    ∃ a, min_time seg = some a ∧ (∃ x ∈ seg, x.time = a) ∧
      ∀ x ∈ seg, a ≤ x.time := by
  unfold min_time
  have hne : (seg.map (fun r => r.time)) ≠ [] := by simpa using h
  obtain ⟨a, ha⟩ : ∃ a, (seg.map (fun r => r.time)).min? = some a := by
    cases hm : (seg.map (fun r => r.time)).min? with
    | none => rw [List.min?_eq_none_iff] at hm; exact absurd hm hne
    | some a => exact ⟨a, rfl⟩
  have hspec := (List.min?_eq_some_iff (fun a => le_refl a)
    (fun a b => min_choice a b) (fun a b c => le_min_iff)).mp ha
  refine ⟨a, ha, ?_, ?_⟩
  · obtain ⟨x, hx, hxa⟩ := List.mem_map.mp hspec.1
    exact ⟨x, hx, hxa⟩
  · intro x hx
    exact hspec.2 _ (List.mem_map_of_mem _ hx)

theorem max_time_spec (seg : List Rx) (h : seg ≠ []) :
    ∃ b, max_time seg = some b ∧ (∃ x ∈ seg, x.time = b) ∧
      ∀ x ∈ seg, x.time ≤ b := by
  unfold max_time
  have hne : (seg.map (fun r => r.time)) ≠ [] := by simpa using h
  obtain ⟨b, hb⟩ : ∃ b, (seg.map (fun r => r.time)).max? = some b := by
    cases hm : (seg.map (fun r => r.time)).max? with
    | none => rw [List.max?_eq_none_iff] at hm; exact absurd hm hne
    | some b => exact ⟨b, rfl⟩
  have hspec := (List.max?_eq_some_iff (fun a => le_refl a)
    (fun a b => max_choice a b) (fun a b c => max_le_iff)).mp hb
  refine ⟨b, hb, ?_, ?_⟩
  · obtain ⟨x, hx, hxb⟩ := List.mem_map.mp hspec.1
    exact ⟨x, hx, hxb⟩
  · intro x hx
    exact hspec.2 _ (List.mem_map_of_mem _ hx)

theorem start_code_not_prescription (g : String) :
    starts_with ("START_" ++ g) "PRESCRIPTION//" = false := rfl

theorem end_code_not_prescription (g : String) :
    starts_with ("END_" ++ g) "PRESCRIPTION//" = false := rfl

/-- Claim C8: for every (subject_id, drug_group) sequence of time-ordered
prescriptions, episode segmentation starts a new episode at the first
prescription and thereafter exactly when the day gap to the previous
prescription exceeds `median + std + 14` (statistics over that group's
consecutive gaps, std = 0 when there are fewer than 2 gaps); each episode
emits exactly one START_PRESCRIPTION event at the earliest prescription time
and one END_PRESCRIPTION event at the latest prescription time plus the last
prescription's duration (60 days when null), and the individual prescription
rows are absent from the assembled chunk stream. -/
theorem C8_drug_episodes (rxs : List Rx)
    (hsort : List.Sorted (fun a b : Rx => a.time ≤ b.time) rxs) :
    create_drug_episodes_group rxs =
        (split_episodes (group_med rxs) (group_var rxs) rxs).filterMap episode_of ∧
    (split_episodes (group_med rxs) (group_var rxs) rxs).join = rxs ∧
    (∀ seg ∈ split_episodes (group_med rxs) (group_var rxs) rxs,
      List.Chain'
        (fun a b : Rx => ((b.time - a.time : ℤ) : ℝ) ≤
          (group_med rxs : ℝ) + Real.sqrt (group_var rxs : ℝ) + 14) seg) ∧
    List.Chain'
      (fun s1 s2 => ∀ a ∈ s1.getLast?, ∀ b ∈ s2.head?,
        (group_med rxs : ℝ) + Real.sqrt (group_var rxs : ℝ) + 14 <
          ((b.time - a.time : ℤ) : ℝ))
      (split_episodes (group_med rxs) (group_var rxs) rxs) ∧
    (∀ seg ∈ split_episodes (group_med rxs) (group_var rxs) rxs,
      ∃ a b, episode_of seg = some (a, b + last_duration seg) ∧
        (∃ x ∈ seg, x.time = a) ∧ (∀ x ∈ seg, a ≤ x.time) ∧
        (∃ x ∈ seg, x.time = b) ∧ (∀ x ∈ seg, x.time ≤ b)) ∧
    (∀ (drug_group : String) (sids : List Int) (mapped : List (Int × String)),
      ∀ x ∈ chunk_assembly sids mapped
          (episode_event_codes drug_group (create_drug_episodes_group rxs)),
        starts_with x.2 "PRESCRIPTION//" = false) := by
  have hvar : 0 ≤ group_var rxs := sampleVarQ_nonneg _
  have hsx : sort_rx rxs = rxs := List.Sorted.insertionSort_eq hsort
  have hfun : create_drug_episodes_group rxs =
      (split_episodes (group_med rxs) (group_var rxs) rxs).filterMap episode_of := by
    unfold create_drug_episodes_group
    rw [hsx]
  have hwithin : ∀ a b : Rx, within_gap (group_med rxs) (group_var rxs) a b →
      ((b.time - a.time : ℤ) : ℝ) ≤
        (group_med rxs : ℝ) + Real.sqrt (group_var rxs : ℝ) + 14 := by
    intro a b hw
    unfold within_gap at hw
    by_contra hlt
    push_neg at hlt
    have := (gap_exceeds_iff (group_med rxs) (group_var rxs) (b.time - a.time) hvar).mpr
      (by exact_mod_cast hlt)
    rw [hw] at this
    cases this
  have hbound : ∀ s1 s2 : List Rx,
      boundary_gap (group_med rxs) (group_var rxs) s1 s2 →
      ∀ a ∈ s1.getLast?, ∀ b ∈ s2.head?,
        (group_med rxs : ℝ) + Real.sqrt (group_var rxs : ℝ) + 14 <
          ((b.time - a.time : ℤ) : ℝ) := by
    intro s1 s2 hb a ha b hb2
    exact (gap_exceeds_iff (group_med rxs) (group_var rxs) (b.time - a.time) hvar).mp
      (hb a ha b hb2)
  have hsegs : (split_episodes (group_med rxs) (group_var rxs) rxs).join = rxs ∧
      (∀ seg ∈ split_episodes (group_med rxs) (group_var rxs) rxs, seg ≠ []) ∧
      (∀ seg ∈ split_episodes (group_med rxs) (group_var rxs) rxs,
        List.Chain' (within_gap (group_med rxs) (group_var rxs)) seg) ∧
      List.Chain' (boundary_gap (group_med rxs) (group_var rxs))
        (split_episodes (group_med rxs) (group_var rxs) rxs) := by
    cases rxs with
    | nil => exact ⟨rfl, by simp [split_episodes], by simp [split_episodes],
        by simp [split_episodes]⟩
    | cons r rest =>
      obtain ⟨hjoin, hne, _, hchain, hbnd⟩ :=
        split_episodes_go_spec (group_med (r :: rest)) (group_var (r :: rest)) rest r []
      refine ⟨?_, ?_, ?_, ?_⟩
      · rw [split_episodes]
        rw [hjoin]
        simp
      · intro seg hs
        exact hne seg hs
      · intro seg hs
        exact hchain (by simp) seg hs
      · exact hbnd
  obtain ⟨hjoin, hne, hchains, hbnds⟩ := hsegs
  refine ⟨hfun, hjoin, ?_, ?_, ?_, ?_⟩
  · intro seg hs
    exact (hchains seg hs).imp (fun a b h => hwithin a b h)
  · exact hbnds.imp (fun s1 s2 h => hbound s1 s2 h)
  · intro seg hs
    have hnes := hne seg hs
    obtain ⟨a, hmin, hatta, hlowa⟩ := min_time_spec seg hnes
    obtain ⟨b, hmax, hattb, hhighb⟩ := max_time_spec seg hnes
    refine ⟨a, b, ?_, hatta, hlowa, hattb, hhighb⟩
    unfold episode_of
    rw [hmin, hmax]
  · intro drug_group sids mapped x hx
    unfold chunk_assembly at hx
    rw [List.mem_append, List.mem_append] at hx
    rcases hx with (hx | hx) | hx
    · obtain ⟨s, _, rfl⟩ := List.mem_map.mp hx
      rfl
    · have := (List.mem_filter.mp hx).2
      rwa [Bool.not_eq_true'] at this
    · unfold episode_event_codes at hx
      rw [List.mem_append] at hx
      rcases hx with hx | hx
      · obtain ⟨ep, _, rfl⟩ := List.mem_map.mp hx
        exact start_code_not_prescription drug_group
      · obtain ⟨ep, _, rfl⟩ := List.mem_map.mp hx
        exact end_code_not_prescription drug_group

/-- Witness for C8, at the spec's example cadence: prescriptions on days 0,
28, 56 and then 400. -/
theorem C8_drug_episodes_witness :
    create_drug_episodes_group [⟨0, some 30⟩, ⟨28, none⟩, ⟨56, some 10⟩, ⟨400, none⟩] =
        (split_episodes
          (group_med [⟨0, some 30⟩, ⟨28, none⟩, ⟨56, some 10⟩, ⟨400, none⟩])
          (group_var [⟨0, some 30⟩, ⟨28, none⟩, ⟨56, some 10⟩, ⟨400, none⟩])
          [⟨0, some 30⟩, ⟨28, none⟩, ⟨56, some 10⟩, ⟨400, none⟩]).filterMap episode_of ∧
    (split_episodes
        (group_med [⟨0, some 30⟩, ⟨28, none⟩, ⟨56, some 10⟩, ⟨400, none⟩])
        (group_var [⟨0, some 30⟩, ⟨28, none⟩, ⟨56, some 10⟩, ⟨400, none⟩])
        [⟨0, some 30⟩, ⟨28, none⟩, ⟨56, some 10⟩, ⟨400, none⟩]).join =
      [⟨0, some 30⟩, ⟨28, none⟩, ⟨56, some 10⟩, ⟨400, none⟩] ∧
    (∀ seg ∈ split_episodes
        (group_med [⟨0, some 30⟩, ⟨28, none⟩, ⟨56, some 10⟩, ⟨400, none⟩])
        (group_var [⟨0, some 30⟩, ⟨28, none⟩, ⟨56, some 10⟩, ⟨400, none⟩])
        [⟨0, some 30⟩, ⟨28, none⟩, ⟨56, some 10⟩, ⟨400, none⟩],
      List.Chain'
        (fun a b : Rx => ((b.time - a.time : ℤ) : ℝ) ≤
          (group_med [⟨0, some 30⟩, ⟨28, none⟩, ⟨56, some 10⟩, ⟨400, none⟩] : ℝ) +
            Real.sqrt
              (group_var [⟨0, some 30⟩, ⟨28, none⟩, ⟨56, some 10⟩, ⟨400, none⟩] : ℝ) +
            14) seg) ∧
    List.Chain'
      (fun s1 s2 => ∀ a ∈ s1.getLast?, ∀ b ∈ s2.head?,
        (group_med [⟨0, some 30⟩, ⟨28, none⟩, ⟨56, some 10⟩, ⟨400, none⟩] : ℝ) +
          Real.sqrt
            (group_var [⟨0, some 30⟩, ⟨28, none⟩, ⟨56, some 10⟩, ⟨400, none⟩] : ℝ) +
          14 < ((b.time - a.time : ℤ) : ℝ))
      (split_episodes
        (group_med [⟨0, some 30⟩, ⟨28, none⟩, ⟨56, some 10⟩, ⟨400, none⟩])
        (group_var [⟨0, some 30⟩, ⟨28, none⟩, ⟨56, some 10⟩, ⟨400, none⟩])
        [⟨0, some 30⟩, ⟨28, none⟩, ⟨56, some 10⟩, ⟨400, none⟩]) ∧
    (∀ seg ∈ split_episodes
        (group_med [⟨0, some 30⟩, ⟨28, none⟩, ⟨56, some 10⟩, ⟨400, none⟩])
        (group_var [⟨0, some 30⟩, ⟨28, none⟩, ⟨56, some 10⟩, ⟨400, none⟩])
        [⟨0, some 30⟩, ⟨28, none⟩, ⟨56, some 10⟩, ⟨400, none⟩],
      ∃ a b, episode_of seg = some (a, b + last_duration seg) ∧
        (∃ x ∈ seg, x.time = a) ∧ (∀ x ∈ seg, a ≤ x.time) ∧
        (∃ x ∈ seg, x.time = b) ∧ (∀ x ∈ seg, x.time ≤ b)) ∧
    (∀ (drug_group : String) (sids : List Int) (mapped : List (Int × String)),
      ∀ x ∈ chunk_assembly sids mapped
          (episode_event_codes drug_group
            (create_drug_episodes_group
              [⟨0, some 30⟩, ⟨28, none⟩, ⟨56, some 10⟩, ⟨400, none⟩])),
        starts_with x.2 "PRESCRIPTION//" = false) :=
  C8_drug_episodes [⟨0, some 30⟩, ⟨28, none⟩, ⟨56, some 10⟩, ⟨400, none⟩]
    (by decide)

/-! ## Sharded output writer (clean_events step 5, step_03c step 7) -/

/-- The fixed shard size of the writers. -/
def SHARD_SIZE : Nat := 1000

/-- polars `.unique().to_list()` on the subject column of a frame already
sorted by subject id (both writers sort by subject first, so equal ids are
adjacent): de-duplication of a sorted list. -/
def unique_sorted : List Int → List Int
  | [] => []
  | [x] => [x]
  | x :: y :: xs => if x == y then unique_sorted (y :: xs) else x :: unique_sorted (y :: xs)

/-- `subject_ids[i : i + SHARD_SIZE]`: the ids of shard `k`. -/
def shard_ids (ids : List Int) (k : Nat) : List Int :=
  (ids.drop (k * SHARD_SIZE)).take SHARD_SIZE

/-- The de-duplicated subject id list of one split's frame. -/
def subject_ids_of (split_data : List CEvent) : List Int :=
  unique_sorted (split_data.map fun e => e.subject_id)

/-- `split_data.filter(pl.col('subject_id').is_in(subject_id_chunk))`: the rows
written to shard `k`, in frame order. -/
def shard_data (split_data : List CEvent) (k : Nat) : List CEvent :=
  split_data.filter fun e =>
    (shard_ids (subject_ids_of split_data) k).contains e.subject_id

/-- The shard number a subject lands in: its rank in the de-duplicated id
list, divided by the shard size. -/
def shard_of (split_data : List CEvent) (s : Int) : Nat :=
  (subject_ids_of split_data).indexOf s / SHARD_SIZE

theorem unique_sorted_mem (l : List Int) (s : Int) :
    s ∈ unique_sorted l ↔ s ∈ l := by
  induction l with
  | nil => simp [unique_sorted]
  | cons x xs ih =>
    cases xs with
    | nil => simp [unique_sorted]
    | cons y ys =>
      by_cases hxy : x = y
      · subst hxy
        rw [show unique_sorted (x :: x :: ys) = unique_sorted (x :: ys) by
          simp [unique_sorted]]
        rw [ih]
        simp
      · rw [show unique_sorted (x :: y :: ys) = x :: unique_sorted (y :: ys) by
          simp [unique_sorted, hxy]]
        simp only [List.mem_cons]
        rw [ih]
        simp

theorem unique_sorted_sorted (l : List Int)
    (hs : List.Pairwise (fun a b : Int => a ≤ b) l) :
    List.Pairwise (fun a b : Int => a < b) (unique_sorted l) := by
  induction l with
  | nil => simp [unique_sorted]
  | cons x xs ih =>
    cases xs with
    | nil => simp [unique_sorted]
    | cons y ys =>
      obtain ⟨hx, hrest⟩ := List.pairwise_cons.mp hs
      by_cases hxy : x = y
      · rw [show unique_sorted (x :: y :: ys) = unique_sorted (y :: ys) by
          simp [unique_sorted, hxy]]
        exact ih hrest
      · rw [show unique_sorted (x :: y :: ys) = x :: unique_sorted (y :: ys) by
          simp [unique_sorted, hxy]]
        rw [List.pairwise_cons]
        refine ⟨?_, ih hrest⟩
        intro e he
        rw [unique_sorted_mem] at he
        have hxy2 : x < y := lt_of_le_of_ne (hx y (List.mem_cons_self _ _)) hxy
        rcases List.mem_cons.mp he with rfl | he2
        · exact hxy2
        · have := (List.pairwise_cons.mp hrest).1 e he2
          omega

theorem nodup_getElem?_eq_iff (ids : List Int) (hnd : ids.Nodup) (s : Int)
    (hm : s ∈ ids) (m : Nat) :
    ids[m]? = some s ↔ m = ids.indexOf s := by
  constructor
  · intro h
    have hlt : m < ids.length := by
      by_contra hge
      push_neg at hge
      rw [List.getElem?_eq_none hge] at h
      cases h
    have hidx : ids.indexOf s < ids.length := List.indexOf_lt_length.mpr hm
    have hget : ids.get ⟨m, hlt⟩ = s := by
      rw [List.getElem?_eq_getElem hlt] at h
      exact Option.some.inj h
    have heq : ids.get ⟨m, hlt⟩ = ids.get ⟨ids.indexOf s, hidx⟩ := by
      rw [hget, List.indexOf_get]
    have hfe := (hnd.get_inj_iff).mp heq
    exact Fin.mk.injEq _ _ _ _ ▸ hfe
  · rintro rfl
    have hidx : ids.indexOf s < ids.length := List.indexOf_lt_length.mpr hm
    rw [List.getElem?_eq_getElem hidx]
    exact congrArg some (List.indexOf_get hidx)

theorem mem_shard_ids_iff (ids : List Int) (hnd : ids.Nodup) (s : Int)
    (hm : s ∈ ids) (k : Nat) :
    s ∈ shard_ids ids k ↔ k = ids.indexOf s / SHARD_SIZE := by
  unfold shard_ids
  rw [List.mem_iff_getElem?]
  constructor
  · rintro ⟨j, hj⟩
    rw [List.getElem?_take] at hj
    by_cases hjlt : j < SHARD_SIZE
    · rw [if_pos hjlt] at hj
      rw [List.getElem?_drop] at hj
      have hidx := (nodup_getElem?_eq_iff ids hnd s hm _).mp hj
      simp only [SHARD_SIZE] at hjlt hidx ⊢
      omega
    · rw [if_neg hjlt] at hj
      cases hj
  · rintro rfl
    refine ⟨ids.indexOf s % SHARD_SIZE, ?_⟩
    have hpos : 0 < SHARD_SIZE := by decide
    rw [List.getElem?_take, if_pos (Nat.mod_lt _ hpos), List.getElem?_drop]
    apply (nodup_getElem?_eq_iff ids hnd s hm _).mpr
    simp only [SHARD_SIZE]
    omega

/-- Claim C9: sharded output is deterministic. Shard assignment is purely
positional over a sorted, de-duplicated list of the split's subject ids with
shard size 1000 — a subject's shard number is its rank in that list divided by
1000 — and a subject's events appear in its shard exactly as they appear, in
order, in the split's (sorted) frame; the whole writer is a pure function of
its input, so identical inputs reproduce identical shard membership and
per-subject event order. -/
theorem C9_shard_positional (split_data : List CEvent) (s : Int)
    (hsort : List.Pairwise (fun a b : CEvent => a.subject_id ≤ b.subject_id) split_data)
    (hmem : s ∈ split_data.map (fun e => e.subject_id)) :
    List.Pairwise (fun a b : Int => a < b) (subject_ids_of split_data) ∧
    s ∈ subject_ids_of split_data ∧
    (∀ k, s ∈ shard_ids (subject_ids_of split_data) k ↔ k = shard_of split_data s) ∧
    (shard_data split_data (shard_of split_data s)).filter
        (fun e => e.subject_id == s) =
      split_data.filter (fun e => e.subject_id == s) := by
  have hmap : List.Pairwise (fun a b : Int => a ≤ b)
      (split_data.map fun e => e.subject_id) := by
    rw [List.pairwise_map]
    exact hsort
  have hsorted := unique_sorted_sorted _ hmap
  have hnd : (subject_ids_of split_data).Nodup :=
    hsorted.imp (fun h => ne_of_lt h)
  have hmemids : s ∈ subject_ids_of split_data :=
    (unique_sorted_mem _ _).mpr hmem
  have hiff := fun k => mem_shard_ids_iff (subject_ids_of split_data) hnd s hmemids k
  refine ⟨hsorted, hmemids, hiff, ?_⟩
  unfold shard_data
  rw [List.filter_filter]
  apply List.filter_congr
  intro e hemem
  by_cases hes : e.subject_id = s
  · have hin : s ∈ shard_ids (subject_ids_of split_data) (shard_of split_data s) :=
      (hiff (shard_of split_data s)).mpr rfl
    have hcont : (shard_ids (subject_ids_of split_data)
        (shard_of split_data s)).contains e.subject_id = true := by
      rw [hes]
      exact List.elem_iff.mpr hin
    simp [hes, hcont, hin]
  · simp [hes]

/-- Witness for C9: two subjects, three rows, subject 2. -/
theorem C9_shard_positional_witness :
    List.Pairwise (fun a b : Int => a < b)
      (subject_ids_of
        [⟨1, some 1, "A", none, none⟩, ⟨1, some 2, "B", none, none⟩,
         ⟨2, some 3, "C", none, none⟩]) ∧
    (2 : Int) ∈ subject_ids_of
        [⟨1, some 1, "A", none, none⟩, ⟨1, some 2, "B", none, none⟩,
         ⟨2, some 3, "C", none, none⟩] ∧
    (∀ k, (2 : Int) ∈ shard_ids (subject_ids_of
        [⟨1, some 1, "A", none, none⟩, ⟨1, some 2, "B", none, none⟩,
         ⟨2, some 3, "C", none, none⟩]) k ↔
      k = shard_of
        [⟨1, some 1, "A", none, none⟩, ⟨1, some 2, "B", none, none⟩,
         ⟨2, some 3, "C", none, none⟩] 2) ∧
    (shard_data
        [⟨1, some 1, "A", none, none⟩, ⟨1, some 2, "B", none, none⟩,
         ⟨2, some 3, "C", none, none⟩]
        (shard_of
          [⟨1, some 1, "A", none, none⟩, ⟨1, some 2, "B", none, none⟩,
           ⟨2, some 3, "C", none, none⟩] 2)).filter
        (fun e => e.subject_id == 2) =
      ([⟨1, some 1, "A", none, none⟩, ⟨1, some 2, "B", none, none⟩,
        ⟨2, some 3, "C", none, none⟩] : List CEvent).filter
        (fun e => e.subject_id == 2) :=
  C9_shard_positional
    [⟨1, some 1, "A", none, none⟩, ⟨1, some 2, "B", none, none⟩,
     ⟨2, some 3, "C", none, none⟩] 2 (by decide) (by decide)

/-! ## The empty-prescriptions chunk failure (drug_episodes.py + step_03) -/

/-- A polars DataFrame at schema level: just its column names. -/
structure PDF where
  columns : List String
deriving DecidableEq, Repr

/-- `df.select([...])`: succeeds with the requested columns when they all
exist, raises `ColumnNotFoundError` otherwise. -/
def pdf_select (cols : List String) (df : PDF) : Except String PDF :=
  if cols.all (fun c => df.columns.contains c) then Except.ok ⟨cols⟩
  else Except.error "ColumnNotFoundError"

/-- The schema of `create_drug_episodes`'s result: on an empty input frame it
returns `pl.DataFrame()` — a frame with no columns at all — and otherwise the
START/END concat with the `subject_id, split, time, code` schema. -/
def create_drug_episodes_schema (prescriptions_is_empty : Bool) : PDF :=
  if prescriptions_is_empty then ⟨[]⟩
  else ⟨["subject_id", "split", "time", "code"]⟩

/-- The step_03 per-chunk assembly at schema level: split the chunk into
prescriptions and the rest, consolidate episodes, and select the episode
columns `subject_id, split, time, code` before concatenating and writing the
shard. -/
def process_chunk_schema (chunk : List (Int × String)) : Except String PDF :=
  let episodes := create_drug_episodes_schema
    ((chunk.filter fun e => starts_with e.2 "PRESCRIPTION//").isEmpty)
  match pdf_select ["subject_id", "split", "time", "code"] episodes with
  | Except.error msg => Except.error msg
  | Except.ok _ => Except.ok ⟨["subject_id", "time", "code", "numeric_value"]⟩

/-- Claim C10: when the prescriptions input is empty, `create_drug_episodes`
returns an empty DataFrame with no columns at all, so for a chunk that has
events but no PRESCRIPTION-category events the caller's selection of
`subject_id, split, time, code` from that result is undefined and the chunk's
shard write errors instead of producing a shard without episode events. -/
theorem C10_empty_prescriptions_error (chunk : List (Int × String))
    (hne : chunk ≠ [])
    (hnop : ∀ e ∈ chunk, starts_with e.2 "PRESCRIPTION//" = false) :
    create_drug_episodes_schema
        ((chunk.filter fun e => starts_with e.2 "PRESCRIPTION//").isEmpty) =
      ⟨[]⟩ ∧
    process_chunk_schema chunk = Except.error "ColumnNotFoundError" := by
  have hfil : (chunk.filter fun e => starts_with e.2 "PRESCRIPTION//") = [] := by
    rw [List.filter_eq_nil]
    intro a ha
    rw [hnop a ha]
    simp
  have hempty : (chunk.filter fun e => starts_with e.2 "PRESCRIPTION//").isEmpty = true := by
    rw [hfil]
    rfl
  constructor
  · rw [hempty]
    rfl
  · unfold process_chunk_schema
    rw [hempty]
    rfl

/-- Witness for C10: a chunk with one MEDICAL event and no prescriptions. -/
theorem C10_empty_prescriptions_error_witness :
    create_drug_episodes_schema
        (([(1, "MEDICAL//asthma//H33..")].filter
          fun e => starts_with e.2 "PRESCRIPTION//").isEmpty) = ⟨[]⟩ ∧
    process_chunk_schema [(1, "MEDICAL//asthma//H33..")] =
      Except.error "ColumnNotFoundError" :=
  C10_empty_prescriptions_error [(1, "MEDICAL//asthma//H33..")]
    (by decide) (by decide)
